import Mathlib

/-!
Verification development for the per-canister message queueing subsystem
(`canister_state/queues.rs` and `canister_state/queues/message_pool.rs`).

The Rust source is shallowly embedded: `u64` counters become `Nat` (the
identifier generator is a monotonic counter far below the overflow range),
`BTreeMap` becomes a sorted association list, `BTreeSet` a sorted
duplicate-free list, `VecDeque` a plain list (front at the head), and
`BinaryHeap` a list whose pop operation removes the maximal element under
the heap order.  Fallible operations return `Except` or pair the result
with the post state.

Types that the queues code imports from crates whose sources are not part
of this repository snapshot (messages, queue leaves, error types) are
modelled from the specification; each such definition carries a doc
comment starting with `Modelled from the spec:`.
-/

namespace ICQ

/-- Modelled from the spec: canister identifiers are opaque principals;
we embed them as naturals. -/
abbrev CanisterId := Nat

/-- Modelled from the spec: callback identifiers minted by the caller for
each outstanding call. -/
abbrev CallbackId := Nat

/-- Modelled from the spec: coarse time is a whole number of seconds since
the Unix epoch; the zero value doubles as the `NO_DEADLINE` sentinel. -/
abbrev CoarseTime := Nat

/-- Modelled from the spec: absolute time in nanoseconds since the Unix
epoch. -/
abbrev Time := Nat

/-- The `NO_DEADLINE` sentinel (zero coarse time). -/
def NO_DEADLINE : CoarseTime := 0

/-- `CoarseTime::floor`: round a nanosecond timestamp down to whole
seconds. -/
def coarseFloor (t : Time) : CoarseTime := t / 1000000000

/-- `REQUEST_LIFETIME`, 300 seconds, in nanoseconds. -/
def REQUEST_LIFETIME : Time := 300 * 1000000000

/-- Modelled from the spec: `MAX_RESPONSE_COUNT_BYTES` is a platform
constant (the maximal byte size of a guaranteed response); its exact value
is irrelevant to the claims, we fix a positive constant. -/
def MAX_RESPONSE_COUNT_BYTES : Nat := 2097152

/-- Modelled from the spec: `MR_SYNTHETIC_REJECT_MESSAGE_MAX_LEN`, the
platform-defined limit to which synthetic reject messages are truncated. -/
def MR_SYNTHETIC_REJECT_MESSAGE_MAX_LEN : Nat := 255

/-- Modelled from the spec: reject codes for reject responses. -/
inductive RejectCode
  | SysFatal
  | SysTransient
  | DestinationInvalid
  | CanisterReject
  | CanisterError
deriving DecidableEq, Repr

/-- Modelled from the spec: a reject context is a reject code plus a
message string. -/
structure RejectContext where
  code : RejectCode
  message : String
deriving DecidableEq, Repr

/-- `RejectContext::new_with_message_length_limit`: truncate the message
to the given limit. -/
def RejectContext.new_with_message_length_limit (code : RejectCode) (message : String)
    (limit : Nat) : RejectContext :=
  { code := code, message := ⟨message.toList.take limit⟩ }

/-- Modelled from the spec: a response payload is either data (abstracted
to its byte size) or a reject context. -/
inductive Payload
  | Data (size : Nat)
  | Reject (context : RejectContext)
deriving DecidableEq, Repr

/-- Modelled from the spec: a request message.  The opaque content
(method name, arguments) is abstracted to its byte size. -/
structure Request where
  sender : CanisterId
  receiver : CanisterId
  sender_reply_callback : CallbackId
  payment : Nat
  deadline : CoarseTime
  payload_size_bytes : Nat
deriving DecidableEq, Repr

/-- Modelled from the spec: a response message. -/
structure Response where
  originator : CanisterId
  respondent : CanisterId
  originator_reply_callback : CallbackId
  refund : Nat
  response_payload : Payload
  deadline : CoarseTime
deriving DecidableEq, Repr

/-- Modelled from the spec: a message is a request or a response. -/
inductive RequestOrResponse
  | request (req : Request)
  | response (rep : Response)
deriving DecidableEq, Repr

/-- Modelled from the spec: byte size of a payload. -/
def Payload.count_bytes : Payload → Nat
  | .Data size => size
  | .Reject context => context.message.length

/-- Modelled from the spec: byte size of a request (abstracted as the
opaque content size). -/
def Request.count_bytes (req : Request) : Nat := req.payload_size_bytes

/-- Modelled from the spec: byte size of a response (abstracted as the
payload size). -/
def Response.count_bytes (rep : Response) : Nat := rep.response_payload.count_bytes

/-- `RequestOrResponse::count_bytes`. -/
def RequestOrResponse.count_bytes : RequestOrResponse → Nat
  | .request req => req.count_bytes
  | .response rep => rep.count_bytes

/-- `RequestOrResponse::sender`: the sender of a request, the respondent
of a response. -/
def RequestOrResponse.sender : RequestOrResponse → CanisterId
  | .request req => req.sender
  | .response rep => rep.respondent

/-- `RequestOrResponse::receiver`: the receiver of a request, the
originator of a response. -/
def RequestOrResponse.receiver : RequestOrResponse → CanisterId
  | .request req => req.receiver
  | .response rep => rep.originator

/-- `RequestOrResponse::deadline`. -/
def RequestOrResponse.deadline : RequestOrResponse → CoarseTime
  | .request req => req.deadline
  | .response rep => rep.deadline

/-- `RequestOrResponse::is_best_effort`: non-zero deadline. -/
def RequestOrResponse.is_best_effort (msg : RequestOrResponse) : Bool :=
  msg.deadline != NO_DEADLINE

/-! ## Message pool flag bits (`message_pool.rs`) -/

/-- Bit encoding the message kind (request or response). -/
inductive Kind
  | Request
  | Response
deriving DecidableEq, Repr

/-- Bit encoding the message context (inbound or outbound). -/
inductive Context
  | Inbound
  | Outbound
deriving DecidableEq, Repr

/-- Bit encoding the message class (guaranteed response vs best-effort). -/
inductive Class
  | GuaranteedResponse
  | BestEffort
deriving DecidableEq, Repr

/-- Numeric value of the kind bit (bit 0). -/
def Kind.bit : Kind → Nat
  | .Request => 0
  | .Response => 1

/-- Numeric value of the context bit (bit 1). -/
def Context.bit : Context → Nat
  | .Inbound => 0
  | .Outbound => 2

/-- Numeric value of the class bit (bit 2). -/
def Class.bit : Class → Nat
  | .GuaranteedResponse => 0
  | .BestEffort => 4

/-- `Kind::from(&RequestOrResponse)`. -/
def Kind.ofMsg : RequestOrResponse → Kind
  | .request _ => .Request
  | .response _ => .Response

/-- `Class::from(&RequestOrResponse)`: guaranteed response iff the
deadline is the zero sentinel. -/
def Class.ofMsg : RequestOrResponse → Class
  | .request req => if req.deadline = NO_DEADLINE then .GuaranteedResponse else .BestEffort
  | .response rep => if rep.deadline = NO_DEADLINE then .GuaranteedResponse else .BestEffort

/-- A unique generated identifier for a message held in a `MessagePool`;
the three low bits encode kind, context and class, the upper bits are the
value of the monotonic generator at issue time. -/
structure MessageId where
  bits : Nat
deriving DecidableEq, Repr

/-- `MessageId::new`. -/
def MessageId.new (kind : Kind) (context : Context) (cls : Class) (generator : Nat) : MessageId :=
  ⟨kind.bit + context.bit + cls.bit + generator * 8⟩

/-- `MessageId::kind`: bit 0. -/
def MessageId.kind (id : MessageId) : Kind :=
  if id.bits % 2 = 0 then .Request else .Response

/-- `MessageId::context`: bit 1. -/
def MessageId.context (id : MessageId) : Context :=
  if id.bits / 2 % 2 = 0 then .Inbound else .Outbound

/-- `MessageId::class`: bit 2. -/
def MessageId.cls (id : MessageId) : Class :=
  if id.bits / 4 % 2 = 0 then .GuaranteedResponse else .BestEffort

/-- The generator value encoded in the high bits of a message id. -/
def MessageId.counter (id : MessageId) : Nat := id.bits / 8

/-! ## Association lists and sorted sets over `Nat` keys

`BTreeMap` is embedded as an association list sorted by key (iteration
order equals key order, matching the Rust map); `BTreeSet` as a sorted
duplicate-free list. -/

/-- Lookup in an association list. -/
def alFind {β : Type} (l : List (Nat × β)) (k : Nat) : Option β :=
  match l with
  | [] => none
  | (k0, v0) :: rest => if k0 = k then some v0 else alFind rest k

/-- Sorted insert into an association list; replaces the value when the
key is present. -/
def alInsert {β : Type} (l : List (Nat × β)) (k : Nat) (v : β) : List (Nat × β) :=
  match l with
  | [] => [(k, v)]
  | (k0, v0) :: rest =>
    if k < k0 then (k, v) :: (k0, v0) :: rest
    else if k0 = k then (k, v) :: rest
    else (k0, v0) :: alInsert rest k v

/-- Remove a key from an association list. -/
def alErase {β : Type} (l : List (Nat × β)) (k : Nat) : List (Nat × β) :=
  match l with
  | [] => []
  | (k0, v0) :: rest => if k0 = k then rest else (k0, v0) :: alErase rest k

/-- Membership in a sorted set. -/
def nsMem (l : List Nat) (k : Nat) : Bool :=
  match l with
  | [] => false
  | k0 :: rest => k0 = k || nsMem rest k

/-- Sorted insert into a sorted duplicate-free set; returns the set
unchanged when the element is present. -/
def nsInsert (l : List Nat) (k : Nat) : List Nat :=
  match l with
  | [] => [k]
  | k0 :: rest =>
    if k < k0 then k :: k0 :: rest
    else if k0 = k then k0 :: rest
    else k0 :: nsInsert rest k

/-- Remove an element from a sorted set. -/
def nsErase (l : List Nat) (k : Nat) : List Nat :=
  match l with
  | [] => []
  | k0 :: rest => if k0 = k then rest else k0 :: nsErase rest k

/-! ## Binary heaps

`BinaryHeap` is embedded as a list of entries together with a pop
operation that removes the maximal entry under the heap order (ties
broken towards the first occurrence; entries compare by value first and
by message id second, so distinct entries never tie). -/

/-- Remove the maximal element of a list under the strict order `lt`
(the element such that no later element is greater). -/
def heapPopMax {α : Type} (lt : α → α → Bool) : List α → Option (α × List α)
  | [] => none
  | x :: xs =>
    match heapPopMax lt xs with
    | none => some (x, [])
    | some (m, rest) => if lt x m then some (m, x :: rest) else some (x, xs)

/-- Heap order of the deadline queue `BinaryHeap<(Reverse<CoarseTime>, MessageId)>`:
entry `a` is below entry `b` iff `a` has the later deadline, ties broken
by smaller id. -/
def dlHeapLt (a b : CoarseTime × MessageId) : Bool :=
  b.1 < a.1 || (a.1 = b.1 && a.2.bits < b.2.bits)

/-- Heap order of the load shedding queue `BinaryHeap<(usize, MessageId)>`:
entry `a` is below entry `b` iff `a` has the smaller size, ties broken by
smaller id. -/
def szHeapLt (a b : Nat × MessageId) : Bool :=
  a.1 < b.1 || (a.1 = b.1 && a.2.bits < b.2.bits)

/-! ## Message stats (`MessageStats`) -/

/-- Running stats for all messages in a `MessagePool`. -/
structure MessageStats where
  size_bytes : Nat := 0
  best_effort_message_bytes : Nat := 0
  guaranteed_responses_size_bytes : Nat := 0
  oversized_guaranteed_requests_extra_bytes : Nat := 0
  inbound_size_bytes : Nat := 0
  inbound_message_count : Nat := 0
  inbound_response_count : Nat := 0
  inbound_guaranteed_request_count : Nat := 0
  inbound_guaranteed_response_count : Nat := 0
  outbound_message_count : Nat := 0
deriving DecidableEq, Repr

/-- `MessageStats::guaranteed_response_memory_usage`. -/
def MessageStats.guaranteed_response_memory_usage (s : MessageStats) : Nat :=
  s.guaranteed_responses_size_bytes + s.oversized_guaranteed_requests_extra_bytes

/-- `MessageStats::request_stats_delta`. -/
def MessageStats.request_stats_delta (req : Request) (context : Context) : MessageStats :=
  let size_bytes := req.count_bytes
  let cls : Class := if req.deadline = NO_DEADLINE then .GuaranteedResponse else .BestEffort
  match context, cls with
  | .Inbound, .GuaranteedResponse =>
    { size_bytes := size_bytes
      best_effort_message_bytes := 0
      guaranteed_responses_size_bytes := 0
      oversized_guaranteed_requests_extra_bytes := size_bytes - MAX_RESPONSE_COUNT_BYTES
      inbound_size_bytes := size_bytes
      inbound_message_count := 1
      inbound_response_count := 0
      inbound_guaranteed_request_count := 1
      inbound_guaranteed_response_count := 0
      outbound_message_count := 0 }
  | .Inbound, .BestEffort =>
    { size_bytes := size_bytes
      best_effort_message_bytes := size_bytes
      guaranteed_responses_size_bytes := 0
      oversized_guaranteed_requests_extra_bytes := 0
      inbound_size_bytes := size_bytes
      inbound_message_count := 1
      inbound_response_count := 0
      inbound_guaranteed_request_count := 0
      inbound_guaranteed_response_count := 0
      outbound_message_count := 0 }
  | .Outbound, .GuaranteedResponse =>
    { size_bytes := size_bytes
      best_effort_message_bytes := 0
      guaranteed_responses_size_bytes := 0
      oversized_guaranteed_requests_extra_bytes := size_bytes - MAX_RESPONSE_COUNT_BYTES
      inbound_size_bytes := 0
      inbound_message_count := 0
      inbound_response_count := 0
      inbound_guaranteed_request_count := 0
      inbound_guaranteed_response_count := 0
      outbound_message_count := 1 }
  | .Outbound, .BestEffort =>
    { size_bytes := size_bytes
      best_effort_message_bytes := size_bytes
      guaranteed_responses_size_bytes := 0
      oversized_guaranteed_requests_extra_bytes := 0
      inbound_size_bytes := 0
      inbound_message_count := 0
      inbound_response_count := 0
      inbound_guaranteed_request_count := 0
      inbound_guaranteed_response_count := 0
      outbound_message_count := 1 }

/-- `MessageStats::response_stats_delta`. -/
def MessageStats.response_stats_delta (rep : Response) (context : Context) : MessageStats :=
  let size_bytes := rep.count_bytes
  let cls : Class := if rep.deadline = NO_DEADLINE then .GuaranteedResponse else .BestEffort
  match context, cls with
  | .Inbound, .GuaranteedResponse =>
    { size_bytes := size_bytes
      best_effort_message_bytes := 0
      guaranteed_responses_size_bytes := size_bytes
      oversized_guaranteed_requests_extra_bytes := 0
      inbound_size_bytes := size_bytes
      inbound_message_count := 1
      inbound_response_count := 1
      inbound_guaranteed_request_count := 0
      inbound_guaranteed_response_count := 1
      outbound_message_count := 0 }
  | .Inbound, .BestEffort =>
    { size_bytes := size_bytes
      best_effort_message_bytes := size_bytes
      guaranteed_responses_size_bytes := 0
      oversized_guaranteed_requests_extra_bytes := 0
      inbound_size_bytes := size_bytes
      inbound_message_count := 1
      inbound_response_count := 1
      inbound_guaranteed_request_count := 0
      inbound_guaranteed_response_count := 0
      outbound_message_count := 0 }
  | .Outbound, .GuaranteedResponse =>
    { size_bytes := size_bytes
      best_effort_message_bytes := 0
      guaranteed_responses_size_bytes := size_bytes
      oversized_guaranteed_requests_extra_bytes := 0
      inbound_size_bytes := 0
      inbound_message_count := 0
      inbound_response_count := 0
      inbound_guaranteed_request_count := 0
      inbound_guaranteed_response_count := 0
      outbound_message_count := 1 }
  | .Outbound, .BestEffort =>
    { size_bytes := size_bytes
      best_effort_message_bytes := size_bytes
      guaranteed_responses_size_bytes := 0
      oversized_guaranteed_requests_extra_bytes := 0
      inbound_size_bytes := 0
      inbound_message_count := 0
      inbound_response_count := 0
      inbound_guaranteed_request_count := 0
      inbound_guaranteed_response_count := 0
      outbound_message_count := 1 }

/-- `MessageStats::stats_delta`. -/
def MessageStats.stats_delta (msg : RequestOrResponse) (context : Context) : MessageStats :=
  match msg with
  | .request req => MessageStats.request_stats_delta req context
  | .response rep => MessageStats.response_stats_delta rep context

/-- `AddAssign for MessageStats`. -/
def MessageStats.add (a b : MessageStats) : MessageStats :=
  { size_bytes := a.size_bytes + b.size_bytes
    best_effort_message_bytes := a.best_effort_message_bytes + b.best_effort_message_bytes
    guaranteed_responses_size_bytes :=
      a.guaranteed_responses_size_bytes + b.guaranteed_responses_size_bytes
    oversized_guaranteed_requests_extra_bytes :=
      a.oversized_guaranteed_requests_extra_bytes + b.oversized_guaranteed_requests_extra_bytes
    inbound_size_bytes := a.inbound_size_bytes + b.inbound_size_bytes
    inbound_message_count := a.inbound_message_count + b.inbound_message_count
    inbound_response_count := a.inbound_response_count + b.inbound_response_count
    inbound_guaranteed_request_count :=
      a.inbound_guaranteed_request_count + b.inbound_guaranteed_request_count
    inbound_guaranteed_response_count :=
      a.inbound_guaranteed_response_count + b.inbound_guaranteed_response_count
    outbound_message_count := a.outbound_message_count + b.outbound_message_count }

/-- `SubAssign for MessageStats` (usize subtraction; never underflows in
reachable states, embedded as truncated subtraction). -/
def MessageStats.sub (a b : MessageStats) : MessageStats :=
  { size_bytes := a.size_bytes - b.size_bytes
    best_effort_message_bytes := a.best_effort_message_bytes - b.best_effort_message_bytes
    guaranteed_responses_size_bytes :=
      a.guaranteed_responses_size_bytes - b.guaranteed_responses_size_bytes
    oversized_guaranteed_requests_extra_bytes :=
      a.oversized_guaranteed_requests_extra_bytes - b.oversized_guaranteed_requests_extra_bytes
    inbound_size_bytes := a.inbound_size_bytes - b.inbound_size_bytes
    inbound_message_count := a.inbound_message_count - b.inbound_message_count
    inbound_response_count := a.inbound_response_count - b.inbound_response_count
    inbound_guaranteed_request_count :=
      a.inbound_guaranteed_request_count - b.inbound_guaranteed_request_count
    inbound_guaranteed_response_count :=
      a.inbound_guaranteed_response_count - b.inbound_guaranteed_response_count
    outbound_message_count := a.outbound_message_count - b.outbound_message_count }

/-! ## The message pool (`MessagePool`) -/

/-- A pool of canister messages with support for expiration and load
shedding.  `messages` is keyed by the raw id bits, sorted ascending. -/
structure MessagePool where
  messages : List (Nat × RequestOrResponse) := []
  message_stats : MessageStats := {}
  deadline_queue : List (CoarseTime × MessageId) := []
  size_queue : List (Nat × MessageId) := []
  message_id_generator : Nat := 0
deriving DecidableEq, Repr

/-- `MessagePool::next_message_id`: reserve and return a new message id. -/
def MessagePool.next_message_id (pool : MessagePool) (kind : Kind) (context : Context)
    (cls : Class) : MessageId × MessagePool :=
  (MessageId.new kind context cls pool.message_id_generator,
   { pool with message_id_generator := pool.message_id_generator + 1 })

/-- `MessagePool::insert_impl`. -/
def MessagePool.insert_impl (pool : MessagePool) (msg : RequestOrResponse)
    (deadline : CoarseTime) (context : Context) : MessageId × MessagePool :=
  let (id, pool) := pool.next_message_id (Kind.ofMsg msg) context (Class.ofMsg msg)
  let size_bytes := msg.count_bytes
  let is_best_effort := msg.is_best_effort
  let pool := { pool with
    message_stats := pool.message_stats.add (MessageStats.stats_delta msg context)
    messages := alInsert pool.messages id.bits msg }
  let pool :=
    if deadline ≠ NO_DEADLINE then
      { pool with deadline_queue := pool.deadline_queue ++ [(deadline, id)] }
    else pool
  let pool :=
    if is_best_effort then
      { pool with size_queue := pool.size_queue ++ [(size_bytes, id)] }
    else pool
  (id, pool)

/-- `MessagePool::insert_inbound`: deadline taken from the request;
inbound responses never expire. -/
def MessagePool.insert_inbound (pool : MessagePool) (msg : RequestOrResponse) :
    MessageId × MessagePool :=
  let deadline :=
    match msg with
    | .request request => request.deadline
    | .response _ => NO_DEADLINE
  pool.insert_impl msg deadline .Inbound

/-- `MessagePool::insert_outbound_request`: guaranteed response call
requests get deadline `now + REQUEST_LIFETIME`. -/
def MessagePool.insert_outbound_request (pool : MessagePool) (request : Request) (now : Time) :
    MessageId × MessagePool :=
  let deadline :=
    if request.deadline = NO_DEADLINE then coarseFloor (now + REQUEST_LIFETIME)
    else request.deadline
  pool.insert_impl (.request request) deadline .Outbound

/-- `MessagePool::insert_outbound_response`. -/
def MessagePool.insert_outbound_response (pool : MessagePool) (response : Response) :
    MessageId × MessagePool :=
  pool.insert_impl (.response response) response.deadline .Outbound

/-- `MessagePool::insert_inbound_timeout_response`: issue a placeholder
id for a potential late inbound best-effort response (no insertion). -/
def MessagePool.insert_inbound_timeout_response (pool : MessagePool) :
    MessageId × MessagePool :=
  pool.next_message_id .Response .Inbound .BestEffort

/-- `MessagePool::replace_inbound_timeout_response`: insert a late
best-effort response under the placeholder id, recording it in the load
shedding queue only.  The source panics unless the message is a
best-effort response; the panic branch is embedded as a no-op. -/
def MessagePool.replace_inbound_timeout_response (pool : MessagePool) (placeholder : MessageId)
    (msg : RequestOrResponse) : MessagePool :=
  match msg with
  | .response rep =>
    if rep.deadline ≠ NO_DEADLINE then
      let size_bytes := msg.count_bytes
      let pool := { pool with
        message_stats := pool.message_stats.add (MessageStats.stats_delta msg placeholder.context)
        messages := alInsert pool.messages placeholder.bits msg }
      { pool with size_queue := pool.size_queue ++ [(size_bytes, placeholder)] }
    else pool
  | .request _ => pool

/-- `MessagePool::get`. -/
def MessagePool.get (pool : MessagePool) (id : MessageId) : Option RequestOrResponse :=
  alFind pool.messages id.bits

/-- `MessagePool::len`. -/
def MessagePool.len (pool : MessagePool) : Nat := pool.messages.length

/-- `MessagePool::maybe_trim_queues`: on an empty pool, reset everything
to the default; otherwise prune stale entries from any priority queue
that exceeds `2 * len + 2` entries. -/
def MessagePool.maybe_trim_queues (pool : MessagePool) : MessagePool :=
  let len := pool.messages.length
  if len = 0 then {}
  else
    let pool :=
      if pool.deadline_queue.length > 2 * len + 2 then
        { pool with deadline_queue :=
            pool.deadline_queue.filter (fun e => (alFind pool.messages e.2.bits).isSome) }
      else pool
    if pool.size_queue.length > 2 * len + 2 then
      { pool with size_queue :=
          pool.size_queue.filter (fun e => (alFind pool.messages e.2.bits).isSome) }
    else pool

/-- `MessagePool::take`: remove the message with the given id, updating
the stats and pruning the priority queues if necessary. -/
def MessagePool.take (pool : MessagePool) (id : MessageId) :
    Option RequestOrResponse × MessagePool :=
  match alFind pool.messages id.bits with
  | none => (none, pool)
  | some msg =>
    let pool := { pool with
      messages := alErase pool.messages id.bits
      message_stats := pool.message_stats.sub (MessageStats.stats_delta msg id.context) }
    (some msg, pool.maybe_trim_queues)

/-- `MessagePool::has_expired_deadlines`: peek at the deadline queue
head and compare against `floor(now)`. -/
def MessagePool.has_expired_deadlines (pool : MessagePool) (now : Time) : Bool :=
  match heapPopMax dlHeapLt pool.deadline_queue with
  | some ((deadline, _), _) => deadline < coarseFloor now
  | none => false

theorem maybe_trim_queues_deadline_le (pool : MessagePool) :
    pool.maybe_trim_queues.deadline_queue.length ≤ pool.deadline_queue.length := by
  unfold MessagePool.maybe_trim_queues
  dsimp only
  split
  · simp
  · split <;> split <;> simp [List.length_filter_le]

theorem maybe_trim_queues_size_le (pool : MessagePool) :
    pool.maybe_trim_queues.size_queue.length ≤ pool.size_queue.length := by
  unfold MessagePool.maybe_trim_queues
  dsimp only
  split
  · simp
  · split <;> split <;> simp [List.length_filter_le]

theorem take_deadline_le (pool : MessagePool) (id : MessageId) :
    (pool.take id).2.deadline_queue.length ≤ pool.deadline_queue.length := by
  unfold MessagePool.take
  split
  · exact Nat.le_refl _
  · exact maybe_trim_queues_deadline_le _

theorem take_size_le (pool : MessagePool) (id : MessageId) :
    (pool.take id).2.size_queue.length ≤ pool.size_queue.length := by
  unfold MessagePool.take
  split
  · exact Nat.le_refl _
  · exact maybe_trim_queues_size_le _

theorem heapPopMax_eq_none {α : Type} (lt : α → α → Bool) (l : List α)
    (h : heapPopMax lt l = none) : l = [] := by
  cases l with
  | nil => rfl
  | cons x xs =>
    simp only [heapPopMax] at h
    cases hx : heapPopMax lt xs with
    | none => rw [hx] at h; simp at h
    | some p =>
      rw [hx] at h
      obtain ⟨m, r⟩ := p
      simp only at h
      split at h <;> simp at h

theorem heapPopMax_length {α : Type} (lt : α → α → Bool) (l : List α) (m : α) (rest : List α)
    (h : heapPopMax lt l = some (m, rest)) : rest.length + 1 = l.length := by
  induction l generalizing m rest with
  | nil => simp [heapPopMax] at h
  | cons x xs ih =>
    simp only [heapPopMax] at h
    cases hx : heapPopMax lt xs with
    | none =>
      rw [hx] at h
      have hnil := heapPopMax_eq_none lt xs hx
      subst hnil
      simp only [Option.some.injEq, Prod.mk.injEq] at h
      simp [h.2]
    | some p =>
      rw [hx] at h
      obtain ⟨m0, rest0⟩ := p
      have ihh := ih m0 rest0 hx
      simp only at h
      split at h
      · simp only [Option.some.injEq, Prod.mk.injEq] at h
        obtain ⟨h1, h2⟩ := h
        subst h2
        simp only [List.length_cons] at ihh ⊢
        omega
      · simp only [Option.some.injEq, Prod.mk.injEq] at h
        obtain ⟨h1, h2⟩ := h
        subst h2
        simp

/-- The loop of `MessagePool::expire_messages`: pop deadline queue
entries strictly before `now`, removing and accumulating those still
resident.  The loop is embedded with an explicit iteration bound (the
initial deadline queue length); every iteration consumes at least one
entry, so the bound is never exhausted and the zero-fuel base case
coincides with the empty-queue exit. -/
def MessagePool.expire_messages_go (now : CoarseTime) :
    Nat → MessagePool → List (MessageId × RequestOrResponse) →
      List (MessageId × RequestOrResponse) × MessagePool
  | 0, pool, acc => (acc.reverse, pool)
  | fuel + 1, pool, acc =>
    match heapPopMax dlHeapLt pool.deadline_queue with
    | none => (acc.reverse, pool)
    | some ((deadline, id), rest) =>
      if now ≤ deadline then (acc.reverse, pool)
      else
        let t := MessagePool.take { pool with deadline_queue := rest } id
        match t.1 with
        | some msg => MessagePool.expire_messages_go now fuel t.2 ((id, msg) :: acc)
        | none => MessagePool.expire_messages_go now fuel t.2 acc

/-- `MessagePool::expire_messages`: remove and return all messages with
expired deadlines. -/
def MessagePool.expire_messages (pool : MessagePool) (now : Time) :
    List (MessageId × RequestOrResponse) × MessagePool :=
  if pool.deadline_queue.isEmpty then ([], pool)
  else MessagePool.expire_messages_go (coarseFloor now) pool.deadline_queue.length pool []

/-- The loop of `MessagePool::shed_largest_message`, with the same
explicit iteration bound convention as the expiration loop. -/
def MessagePool.shed_go :
    Nat → MessagePool → Option (MessageId × RequestOrResponse) × MessagePool
  | 0, pool => (none, pool)
  | fuel + 1, pool =>
    match heapPopMax szHeapLt pool.size_queue with
    | none => (none, pool)
    | some ((_, id), rest) =>
      let t := MessagePool.take { pool with size_queue := rest } id
      match t.1 with
      | some msg => (some (id, msg), t.2)
      | none => MessagePool.shed_go fuel t.2

/-- `MessagePool::shed_largest_message`: pop load shedding queue entries
until one is still resident; remove and return that message. -/
def MessagePool.shed_largest_message (pool : MessagePool) :
    Option (MessageId × RequestOrResponse) × MessagePool :=
  MessagePool.shed_go pool.size_queue.length pool

/-- `MessagePool::calculate_message_stats`: recompute the stats from
scratch. -/
def MessagePool.calculate_message_stats (messages : List (Nat × RequestOrResponse)) :
    MessageStats :=
  messages.foldl
    (fun stats e => stats.add (MessageStats.stats_delta e.2 (MessageId.mk e.1).context)) {}

/-! ## Pool invariant checking (`MessagePool::check_invariants`)

The source performs the tag checks and the accumulator updates in one
loop over `messages`; since the accumulators are only consumed after the
loop succeeds, the embedding separates the fallible tag check from the
pure accumulator computations (behavior on success is identical). -/

/-- `Context::Outbound | Class::GuaranteedResponse | Kind::Request`. -/
def OUTBOUND_GUARANTEED_REQUEST : Nat := 2

/-- Tag check of the first loop: the kind and class bits of every id
must match its message. -/
def checkTagLoop : List (Nat × RequestOrResponse) → Except String Unit
  | [] => .ok ()
  | (bits, msg) :: rest =>
    if (MessageId.mk bits).kind ≠ Kind.ofMsg msg then .error "Message kind mismatch"
    else if (MessageId.mk bits).cls ≠ Class.ofMsg msg then .error "Message class mismatch"
    else checkTagLoop rest

/-- The largest id in the pool (zero when empty), as accumulated by the
first loop. -/
def poolMaxIdBits (messages : List (Nat × RequestOrResponse)) : Nat :=
  messages.foldl (fun m e => max m e.1) 0

/-- Ids of all best-effort messages, as collected by the first loop. -/
def poolBestEffortIds (messages : List (Nat × RequestOrResponse)) : List Nat :=
  (messages.filter (fun e => (MessageId.mk e.1).cls = Class.BestEffort)).map (fun e => e.1)

/-- Ids of all messages that must appear in the deadline queue
(best-effort messages plus outbound guaranteed response requests), as
collected by the first loop. -/
def poolDeadlineIds (messages : List (Nat × RequestOrResponse)) : List Nat :=
  (messages.filter (fun e =>
    (MessageId.mk e.1).cls = Class.BestEffort ∨ e.1 % 8 = OUTBOUND_GUARANTEED_REQUEST)).map
    (fun e => e.1)

/-- Deadline queue loop of `check_invariants`. -/
def checkDeadlineLoop (pool : MessagePool) :
    List (CoarseTime × MessageId) → List Nat → Except String (List Nat)
  | [], setD => .ok setD
  | (deadline, id) :: rest, setD =>
    if id.cls = Class.GuaranteedResponse ∧ id.bits % 8 ≠ OUTBOUND_GUARANTEED_REQUEST then
      .error "Unexpected MessageId in deadline queue"
    else if id.cls = Class.BestEffort ∧ nsMem setD id.bits then
      match alFind pool.messages id.bits with
      | some msg =>
        if msg.deadline ≠ deadline then .error "Deadline mismatch"
        else checkDeadlineLoop pool rest (nsErase setD id.bits)
      | none => .error "Deadline queue id not in pool"
    else checkDeadlineLoop pool rest (nsErase setD id.bits)

/-- Load shedding queue loop of `check_invariants`. -/
def checkSizeLoop : List (Nat × MessageId) → List Nat → Except String (List Nat)
  | [], setB => .ok setB
  | (_, id) :: rest, setB =>
    if id.cls = Class.GuaranteedResponse then
      .error "Guaranteed response message in load shedding queue"
    else checkSizeLoop rest (nsErase setB id.bits)

/-- `MessagePool::check_invariants`. -/
def MessagePool.check_invariants (pool : MessagePool) : Except String Unit := do
  checkTagLoop pool.messages
  if poolMaxIdBits pool.messages / 8 ≥ pool.message_id_generator then
    throw "MessageId out of bounds"
  let setD ← checkDeadlineLoop pool pool.deadline_queue (poolDeadlineIds pool.messages)
  if setD ≠ [] then
    throw "Messages missing from deadline queue"
  let setB ← checkSizeLoop pool.size_queue (poolBestEffortIds pool.messages)
  if setB ≠ [] then
    throw "Best-effort messages missing from load shedding queue"
  return ()

/-! ## Pool serialization (`From` and `TryFrom` for the record form) -/

/-- The canonical record form of a message pool (`pb_queues::MessagePool`). -/
structure PbMessagePool where
  messages : List (Nat × RequestOrResponse)
  message_deadlines : List (CoarseTime × Nat)
  message_sizes : List (Nat × Nat)
  message_id_generator : Nat
deriving DecidableEq, Repr

/-- Ascending order used by `into_sorted_vec` on the deadline queue
(entries compare by reversed deadline first, id second). -/
def dlVecLe (a b : CoarseTime × MessageId) : Bool :=
  b.1 < a.1 || (a.1 = b.1 && a.2.bits ≤ b.2.bits)

/-- Ascending order used by `into_sorted_vec` on the load shedding queue. -/
def szVecLe (a b : Nat × MessageId) : Bool :=
  a.1 < b.1 || (a.1 = b.1 && a.2.bits ≤ b.2.bits)

/-- `From<&MessagePool> for pb_queues::MessagePool`: messages iterate in
map (id) order, the heaps serialize as sorted vectors. -/
def MessagePool.to_pb (pool : MessagePool) : PbMessagePool :=
  { messages := pool.messages
    message_deadlines :=
      (pool.deadline_queue.mergeSort dlVecLe).map (fun e => (e.1, e.2.bits))
    message_sizes :=
      (pool.size_queue.mergeSort szVecLe).map (fun e => (e.1, e.2.bits))
    message_id_generator := pool.message_id_generator }

/-- `TryFrom<pb_queues::MessagePool> for MessagePool`: rebuild the map
(rejecting duplicate ids), recompute the stats, rebuild the heaps, then
revalidate the invariants. -/
def MessagePool.try_from (pb : PbMessagePool) : Except String MessagePool :=
  let message_count := pb.messages.length
  let messages := pb.messages.foldl (fun m e => alInsert m e.1 e.2) []
  if messages.length ≠ message_count then .error "Duplicate MessageId"
  else
    let res : MessagePool :=
      { messages := messages
        message_stats := MessagePool.calculate_message_stats messages
        deadline_queue := pb.message_deadlines.map (fun e => (e.1, MessageId.mk e.2))
        size_queue := pb.message_sizes.map (fun e => (e.1, MessageId.mk e.2))
        message_id_generator := pb.message_id_generator }
    match res.check_invariants with
    | .ok _ => .ok res
    | .error e => .error e

/-- `binary_heap_eq`: multiset equality of two heaps, via their sorted
vectors. -/
def binary_heap_eq {α : Type} [DecidableEq α] (le : α → α → Bool) (lhs rhs : List α) : Bool :=
  lhs.length = rhs.length &&
    (lhs == rhs || lhs.mergeSort le == rhs.mergeSort le)

/-- `PartialEq for MessagePool`: field equality, with the heaps compared
as multisets. -/
def MessagePool.srcEq (a b : MessagePool) : Bool :=
  a.messages == b.messages &&
  a.message_stats == b.message_stats &&
  a.message_id_generator == b.message_id_generator &&
  binary_heap_eq dlVecLe a.deadline_queue b.deadline_queue &&
  binary_heap_eq szVecLe a.size_queue b.size_queue

/-! ## Queue leaves (`queue.rs`, not part of this source snapshot) -/

/-- `DEFAULT_QUEUE_CAPACITY`. -/
def DEFAULT_QUEUE_CAPACITY : Nat := 500

/-- Modelled from the spec: the error taxonomy surfaced to callers.
`NonMatchingResponse` carries the message string, originator, callback
id, respondent and deadline. -/
inductive StateError
  | QueueFull (capacity : Nat)
  | NonMatchingResponse (err_str : String) (originator : CanisterId) (callback_id : CallbackId)
      (respondent : CanisterId) (deadline : CoarseTime)
deriving DecidableEq, Repr

/-- An item of a `CanisterQueue`: a reference into the message pool. -/
inductive CanisterQueueItem
  | Reference (id : MessageId)
deriving DecidableEq, Repr

/-- `CanisterQueueItem::id`. -/
def CanisterQueueItem.id : CanisterQueueItem → MessageId
  | .Reference id => id

/-- Modelled from the spec: `CanisterQueue` (from the missing
`queue.rs`), a bounded FIFO of references into the pool, with a request
capacity, a response capacity and a count of reserved response slots.
Enqueued requests and responses are told apart by the kind bit of the
referenced id. -/
structure CanisterQueue where
  queue : List CanisterQueueItem := []
  request_capacity : Nat := DEFAULT_QUEUE_CAPACITY
  response_capacity : Nat := DEFAULT_QUEUE_CAPACITY
  reserved_slots : Nat := 0
deriving DecidableEq, Repr

/-- `CanisterQueue::new`: empty queue with the given capacity for both
requests and responses. -/
def CanisterQueue.new (capacity : Nat) : CanisterQueue :=
  { queue := [], request_capacity := capacity, response_capacity := capacity,
    reserved_slots := 0 }

/-- Number of (potentially stale) items in the queue. -/
def CanisterQueue.len (q : CanisterQueue) : Nat := q.queue.length

/-- Front item, without consuming it. -/
def CanisterQueue.peek (q : CanisterQueue) : Option CanisterQueueItem := q.queue.head?

/-- Pop the front item. -/
def CanisterQueue.pop (q : CanisterQueue) : Option CanisterQueueItem × CanisterQueue :=
  match q.queue with
  | [] => (none, q)
  | item :: rest => (some item, { q with queue := rest })

/-- Modelled from the spec: drop consecutive leading items satisfying
the predicate. -/
def CanisterQueue.pop_while (q : CanisterQueue) (pred : CanisterQueueItem → Bool) :
    CanisterQueue :=
  { q with queue := q.queue.dropWhile pred }

/-- Number of enqueued request references. -/
def CanisterQueue.enqueued_requests (q : CanisterQueue) : Nat :=
  (q.queue.filter (fun item => item.id.kind = Kind.Request)).length

/-- Number of enqueued response references. -/
def CanisterQueue.enqueued_responses (q : CanisterQueue) : Nat :=
  (q.queue.filter (fun item => item.id.kind = Kind.Response)).length

/-- Modelled from the spec: fails with `QueueFull` when no request slot
remains (every enqueued request occupies one of `request_capacity`
slots). -/
def CanisterQueue.check_has_request_slot (q : CanisterQueue) : Except StateError Unit :=
  if q.request_capacity ≤ q.enqueued_requests then .error (.QueueFull q.request_capacity)
  else .ok ()

/-- Modelled from the spec: fails with `QueueFull` when
`reserved_slots + enqueued_responses` reaches `response_capacity`;
otherwise increments `reserved_slots`. -/
def CanisterQueue.try_reserve_response_slot (q : CanisterQueue) :
    Except StateError CanisterQueue :=
  if q.response_capacity ≤ q.reserved_slots + q.enqueued_responses then
    .error (.QueueFull q.response_capacity)
  else .ok { q with reserved_slots := q.reserved_slots + 1 }

/-- Modelled from the spec: release a reserved response slot (used when
a request whose reservation was held is permanently dropped). -/
def CanisterQueue.release_reserved_response_slot (q : CanisterQueue) : CanisterQueue :=
  { q with reserved_slots := q.reserved_slots - 1 }

/-- Modelled from the spec: succeeds iff a reserved response slot is
available. -/
def CanisterQueue.check_has_reserved_response_slot (q : CanisterQueue) :
    Except StateError Unit :=
  if q.reserved_slots = 0 then .error (.QueueFull q.response_capacity) else .ok ()

/-- Modelled from the spec: append a request reference (requires an
available request slot, checked by the caller). -/
def CanisterQueue.push_request (q : CanisterQueue) (id : MessageId) : CanisterQueue :=
  { q with queue := q.queue ++ [.Reference id] }

/-- Modelled from the spec: append a response reference and consume a
reserved response slot. -/
def CanisterQueue.push_response (q : CanisterQueue) (id : MessageId) : CanisterQueue :=
  { q with queue := q.queue ++ [.Reference id], reserved_slots := q.reserved_slots - 1 }

/-- Modelled from the spec: a queue has used slots iff it holds items or
reservations. -/
def CanisterQueue.has_used_slots (q : CanisterQueue) : Bool :=
  q.queue.length ≠ 0 || q.reserved_slots ≠ 0

/-- Modelled from the spec: remaining request slots. -/
def CanisterQueue.available_request_slots (q : CanisterQueue) : Nat :=
  q.request_capacity - q.enqueued_requests

/-- Modelled from the spec: remaining response slots (capacity minus
reservations and enqueued responses). -/
def CanisterQueue.available_response_slots (q : CanisterQueue) : Nat :=
  q.response_capacity - (q.reserved_slots + q.enqueued_responses)

/-- Modelled from the spec: an ingress (user) message; the content is
abstracted to the submitting user and a byte size. -/
structure Ingress where
  source : Nat
  receiver : CanisterId
  payload_size_bytes : Nat
deriving DecidableEq, Repr

/-- Modelled from the spec: `IngressQueue` keeps one FIFO per user, in
round-robin schedule order (per-user lists are non-empty). -/
structure IngressQueue where
  entries : List (Nat × List Ingress) := []
deriving DecidableEq, Repr

/-- Modelled from the spec: append to the FIFO of the submitting user,
scheduling the user at the back on first contact. -/
def IngressQueue.push (q : IngressQueue) (msg : Ingress) : IngressQueue :=
  let rec go : List (Nat × List Ingress) → List (Nat × List Ingress)
    | [] => [(msg.source, [msg])]
    | (u, msgs) :: rest =>
      if u = msg.source then (u, msgs ++ [msg]) :: rest else (u, msgs) :: go rest
  ⟨go q.entries⟩

/-- Modelled from the spec: pop the next message of the user at the
front of the schedule and rotate the schedule. -/
def IngressQueue.pop (q : IngressQueue) : Option Ingress × IngressQueue :=
  match q.entries with
  | [] => (none, q)
  | (u, msgs) :: rest =>
    match msgs with
    | [] => (none, ⟨rest⟩)
    | m :: ms =>
      if ms.isEmpty then (some m, ⟨rest⟩) else (some m, ⟨rest ++ [(u, ms)]⟩)

/-- Modelled from the spec: the message `pop` would return. -/
def IngressQueue.peek (q : IngressQueue) : Option Ingress :=
  match q.entries with
  | [] => none
  | (_, msgs) :: _ => msgs.head?

/-- Modelled from the spec: rotate the user schedule without consuming. -/
def IngressQueue.skip_ingress_input (q : IngressQueue) : IngressQueue :=
  match q.entries with
  | [] => q
  | e :: rest => ⟨rest ++ [e]⟩

/-- Modelled from the spec. -/
def IngressQueue.is_empty (q : IngressQueue) : Bool := q.entries.isEmpty

/-- Modelled from the spec: number of enqueued ingress messages. -/
def IngressQueue.size (q : IngressQueue) : Nat :=
  (q.entries.map (fun e => e.2.length)).sum

/-- Modelled from the spec: number of scheduled users. -/
def IngressQueue.ingress_schedule_size (q : IngressQueue) : Nat := q.entries.length

/-! ## `CanisterQueues` (`queues.rs`) -/

/-- Modelled from the spec: whether a pushed input comes from a
local-subnet or remote-subnet peer. -/
inductive InputQueueType
  | LocalSubnet
  | RemoteSubnet
deriving DecidableEq, Repr

/-- Modelled from the spec: the three-state round-robin cursor across
input sources; the default is `Ingress` (scenario S4: the first pop
returns the ingress message). -/
inductive NextInputQueue
  | Ingress
  | RemoteSubnet
  | LocalSubnet
deriving DecidableEq, Repr

/-- Cursor rotation used by `pop_input` and `peek_input`. -/
def NextInputQueue.advance : NextInputQueue → NextInputQueue
  | .LocalSubnet => .Ingress
  | .Ingress => .RemoteSubnet
  | .RemoteSubnet => .LocalSubnet

/-- Modelled from the spec: a message returned to the execution layer. -/
inductive CanisterMessage
  | ingress (msg : Ingress)
  | request (req : Request)
  | response (rep : Response)
deriving DecidableEq, Repr

/-- `From<RequestOrResponse> for CanisterMessage`. -/
def canisterMessageOf : RequestOrResponse → CanisterMessage
  | .request req => .request req
  | .response rep => .response rep

/-- Slot and memory reservation stats (`QueueStats`). -/
structure QueueStats where
  guaranteed_response_memory_reservations : Nat := 0
  input_queues_reserved_slots : Nat := 0
  output_queues_reserved_slots : Nat := 0
  transient_stream_guaranteed_responses_size_bytes : Nat := 0
deriving DecidableEq, Repr

/-- `QueueStats::guaranteed_response_memory_usage`. -/
def QueueStats.guaranteed_response_memory_usage (s : QueueStats) : Nat :=
  s.guaranteed_response_memory_reservations * MAX_RESPONSE_COUNT_BYTES +
    s.transient_stream_guaranteed_responses_size_bytes

/-- `QueueStats::on_push_request`. -/
def QueueStats.on_push_request (s : QueueStats) (request : Request) (context : Context) :
    QueueStats :=
  let s :=
    if request.deadline = NO_DEADLINE then
      { s with guaranteed_response_memory_reservations :=
          s.guaranteed_response_memory_reservations + 1 }
    else s
  if context = Context.Outbound then
    { s with input_queues_reserved_slots := s.input_queues_reserved_slots + 1 }
  else
    { s with output_queues_reserved_slots := s.output_queues_reserved_slots + 1 }

/-- `QueueStats::on_push_response` (saturating subtraction). -/
def QueueStats.on_push_response (s : QueueStats) (response : Response) (context : Context) :
    QueueStats :=
  let s :=
    if response.deadline = NO_DEADLINE then
      { s with guaranteed_response_memory_reservations :=
          s.guaranteed_response_memory_reservations - 1 }
    else s
  if context = Context.Inbound then
    { s with input_queues_reserved_slots := s.input_queues_reserved_slots - 1 }
  else
    { s with output_queues_reserved_slots := s.output_queues_reserved_slots - 1 }

/-- `QueueStats::on_push`. -/
def QueueStats.on_push (s : QueueStats) (msg : RequestOrResponse) (context : Context) :
    QueueStats :=
  match msg with
  | .request request => s.on_push_request request context
  | .response response => s.on_push_response response context

/-- `QueueStats::on_drop_input_request`. -/
def QueueStats.on_drop_input_request (s : QueueStats) (_request : Request) : QueueStats :=
  { s with output_queues_reserved_slots := s.output_queues_reserved_slots - 1 }

/-- The per-canister queue collection. -/
structure CanisterQueues where
  ingress_queue : IngressQueue := {}
  canister_queues : List (Nat × (CanisterQueue × CanisterQueue)) := []
  pool : MessagePool := {}
  queue_stats : QueueStats := {}
  local_subnet_input_schedule : List Nat := []
  remote_subnet_input_schedule : List Nat := []
  input_schedule_canisters : List Nat := []
  next_input_queue : NextInputQueue := .Ingress
  callbacks_with_enqueued_response : List Nat := []
deriving DecidableEq, Repr

/-- `StateError::NonMatchingResponse` built from a response, as in the
local helper of `push_input`. -/
def nonMatchingResponse (message : String) (response : Response) : StateError :=
  .NonMatchingResponse message response.originator response.originator_reply_callback
    response.respondent response.deadline

/-- `pop_and_advance`: pop the head item, advance past stale references,
and take the popped message out of the pool.  The source asserts that
the popped head is non-stale; the panic branch is embedded as returning
`none`. -/
def pop_and_advance (queue : CanisterQueue) (pool : MessagePool) :
    Option RequestOrResponse × CanisterQueue × MessagePool :=
  match queue.pop with
  | (none, queue) => (none, queue, pool)
  | (some item, queue) =>
    let queue := queue.pop_while (fun it => (pool.get it.id).isNone)
    let (msg, pool) := pool.take item.id
    (msg, queue, pool)

/-- `canister_queue_ok`: a queue is either empty or starts with a
non-stale reference. -/
def canister_queue_ok (queue : CanisterQueue) (pool : MessagePool) : Bool :=
  match queue.peek with
  | some item => (pool.get item.id).isSome
  | none => true

/-- `CanisterQueues::get_or_insert_queues`. -/
def CanisterQueues.get_or_insert_queues (qs : CanisterQueues) (canister_id : CanisterId) :
    (CanisterQueue × CanisterQueue) × CanisterQueues :=
  match alFind qs.canister_queues canister_id with
  | some pair => (pair, qs)
  | none =>
    let pair := (CanisterQueue.new DEFAULT_QUEUE_CAPACITY,
                 CanisterQueue.new DEFAULT_QUEUE_CAPACITY)
    (pair, { qs with canister_queues := alInsert qs.canister_queues canister_id pair })

/-- The input schedule selected by an `InputQueueType`. -/
def CanisterQueues.get_schedule (qs : CanisterQueues) : InputQueueType → List Nat
  | .LocalSubnet => qs.local_subnet_input_schedule
  | .RemoteSubnet => qs.remote_subnet_input_schedule

/-- Replace the input schedule selected by an `InputQueueType`. -/
def CanisterQueues.set_schedule (qs : CanisterQueues) (t : InputQueueType) (s : List Nat) :
    CanisterQueues :=
  match t with
  | .LocalSubnet => { qs with local_subnet_input_schedule := s }
  | .RemoteSubnet => { qs with remote_subnet_input_schedule := s }

/-- Common tail of `push_input`: update the stats, insert the message
into the pool, push the reference onto the input queue and, when the
queue becomes non-empty and the sender is not scheduled, append the
sender to the selected input schedule. -/
def CanisterQueues.push_input_finish (qs : CanisterQueues) (sender : CanisterId)
    (msg : RequestOrResponse) (input_queue_type : InputQueueType) : CanisterQueues :=
  let queue_stats := qs.queue_stats.on_push msg .Inbound
  let (id, pool) := qs.pool.insert_inbound msg
  let qs := { qs with queue_stats := queue_stats, pool := pool }
  match alFind qs.canister_queues sender with
  | none => qs
  | some (input_queue, output_queue) =>
    let input_queue :=
      match id.kind with
      | .Request => input_queue.push_request id
      | .Response => input_queue.push_response id
    let qs := { qs with
      canister_queues := alInsert qs.canister_queues sender (input_queue, output_queue) }
    let qs :=
      if input_queue.len = 1 ∧ ¬ nsMem qs.input_schedule_canisters sender then
        let qs := { qs with
          input_schedule_canisters := nsInsert qs.input_schedule_canisters sender }
        qs.set_schedule input_queue_type (qs.get_schedule input_queue_type ++ [sender])
      else qs
    qs

/-- `CanisterQueues::push_input`.  The result is paired with the post
state; early error returns leave the state as mutated so far (for a
request, the queue pair created on demand persists). -/
def CanisterQueues.push_input (qs : CanisterQueues) (msg : RequestOrResponse)
    (input_queue_type : InputQueueType) :
    Except (StateError × RequestOrResponse) Unit × CanisterQueues :=
  let sender := msg.sender
  match msg with
  | .request _ =>
    let (pair, qs) := qs.get_or_insert_queues sender
    let (input_queue, output_queue) := pair
    match input_queue.check_has_request_slot with
    | .error e => (.error (e, msg), qs)
    | .ok _ =>
      match output_queue.try_reserve_response_slot with
      | .error e => (.error (e, msg), qs)
      | .ok output_queue =>
        let qs := { qs with
          canister_queues := alInsert qs.canister_queues sender (input_queue, output_queue) }
        (.ok (), qs.push_input_finish sender msg input_queue_type)
  | .response response =>
    match alFind qs.canister_queues sender with
    | some (queue, _) =>
      if (queue.check_has_reserved_response_slot).isOk then
        if nsMem qs.callbacks_with_enqueued_response response.originator_reply_callback then
          if response.deadline = NO_DEADLINE then
            (.error (nonMatchingResponse "Duplicate response" response, msg), qs)
          else
            (.ok (), qs)
        else
          let qs := { qs with
            callbacks_with_enqueued_response :=
              nsInsert qs.callbacks_with_enqueued_response response.originator_reply_callback }
          (.ok (), qs.push_input_finish sender msg input_queue_type)
      else
        (.error (nonMatchingResponse "No reserved response slot" response, msg), qs)
    | none => (.error (nonMatchingResponse "No reserved response slot" response, msg), qs)

/-- Loop of `CanisterQueues::pop_canister_input` over the selected input
schedule.  A sender whose queue was garbage collected is dropped; a
sender whose queue still has items is re-enqueued at the back.  The
source panics on a stale reference at the head of a non-empty queue;
that branch is embedded as a fail-stop returning `none`. -/
def CanisterQueues.pop_canister_input_go (t : InputQueueType) (qs : CanisterQueues) :
    List Nat → Option CanisterMessage × CanisterQueues
  | [] => (none, qs.set_schedule t [])
  | sender :: rest =>
    match alFind qs.canister_queues sender with
    | none =>
      let qs := { qs with
        input_schedule_canisters := nsErase qs.input_schedule_canisters sender }
      qs.pop_canister_input_go t rest
    | some (input_queue, output_queue) =>
      let (msg, input_queue, pool) := pop_and_advance input_queue qs.pool
      let qs := { qs with
        pool := pool
        canister_queues := alInsert qs.canister_queues sender (input_queue, output_queue) }
      let (qs, schedule) :=
        if input_queue.len ≠ 0 then (qs, rest ++ [sender])
        else ({ qs with
          input_schedule_canisters := nsErase qs.input_schedule_canisters sender }, rest)
      match msg with
      | some m =>
        let qs :=
          match m with
          | .response response =>
            { qs with callbacks_with_enqueued_response :=
                nsErase qs.callbacks_with_enqueued_response response.originator_reply_callback }
          | .request _ => qs
        (some (canisterMessageOf m), qs.set_schedule t schedule)
      | none =>
        if input_queue.len ≠ 0 then (none, qs.set_schedule t schedule)
        else qs.pop_canister_input_go t rest

/-- `CanisterQueues::pop_canister_input`. -/
def CanisterQueues.pop_canister_input (qs : CanisterQueues) (t : InputQueueType) :
    Option CanisterMessage × CanisterQueues :=
  qs.pop_canister_input_go t (qs.get_schedule t)

/-- Loop of `CanisterQueues::peek_canister_input`: prune leading
schedule entries whose queues were garbage collected or emptied; return
the head message of the first live queue.  The source panics on a stale
head; embedded as a fail-stop returning `none`. -/
def CanisterQueues.peek_canister_input_go (t : InputQueueType) (qs : CanisterQueues) :
    List Nat → Option CanisterMessage × CanisterQueues
  | [] => (none, qs.set_schedule t [])
  | sender :: rest =>
    match alFind qs.canister_queues sender with
    | none =>
      let qs := { qs with
        input_schedule_canisters := nsErase qs.input_schedule_canisters sender }
      qs.peek_canister_input_go t rest
    | some (input_queue, _) =>
      match input_queue.peek with
      | some item =>
        match qs.pool.get item.id with
        | some msg => (some (canisterMessageOf msg), qs.set_schedule t (sender :: rest))
        | none => (none, qs.set_schedule t (sender :: rest))
      | none => qs.peek_canister_input_go t rest

/-- `CanisterQueues::peek_canister_input`. -/
def CanisterQueues.peek_canister_input (qs : CanisterQueues) (t : InputQueueType) :
    Option CanisterMessage × CanisterQueues :=
  qs.peek_canister_input_go t (qs.get_schedule t)

/-- `CanisterQueues::skip_canister_input`: rotate the front sender to
the back of the schedule (dropping it when its queue is empty).  The
source unwraps the queue lookup; a missing pair is embedded as dropping
the entry. -/
def CanisterQueues.skip_canister_input (qs : CanisterQueues) (t : InputQueueType) :
    CanisterQueues :=
  match qs.get_schedule t with
  | [] => qs
  | sender :: rest =>
    match alFind qs.canister_queues sender with
    | none =>
      ({ qs with
        input_schedule_canisters := nsErase qs.input_schedule_canisters sender
        }).set_schedule t rest
    | some (input_queue, _) =>
      if input_queue.len ≠ 0 then qs.set_schedule t (rest ++ [sender])
      else
        ({ qs with
          input_schedule_canisters := nsErase qs.input_schedule_canisters sender
          }).set_schedule t rest

/-- One attempt of `CanisterQueues::pop_input`: advance the cursor,
then pop from the previously current source. -/
def CanisterQueues.pop_input_once (qs : CanisterQueues) :
    Option CanisterMessage × CanisterQueues :=
  let cur := qs.next_input_queue
  let qs := { qs with next_input_queue := cur.advance }
  match cur with
  | .Ingress =>
    let (m, iq) := qs.ingress_queue.pop
    (m.map CanisterMessage.ingress, { qs with ingress_queue := iq })
  | .RemoteSubnet => qs.pop_canister_input .RemoteSubnet
  | .LocalSubnet => qs.pop_canister_input .LocalSubnet

/-- `CanisterQueues::pop_input`: try up to three sources round-robin. -/
def CanisterQueues.pop_input (qs : CanisterQueues) :
    Option CanisterMessage × CanisterQueues :=
  match qs.pop_input_once with
  | (some m, qs) => (some m, qs)
  | (none, qs) =>
    match qs.pop_input_once with
    | (some m, qs) => (some m, qs)
    | (none, qs) => qs.pop_input_once

/-- One attempt of `CanisterQueues::peek_input` at the current cursor. -/
def CanisterQueues.peek_input_once (qs : CanisterQueues) :
    Option CanisterMessage × CanisterQueues :=
  match qs.next_input_queue with
  | .Ingress => ((qs.ingress_queue.peek).map CanisterMessage.ingress, qs)
  | .RemoteSubnet => qs.peek_canister_input .RemoteSubnet
  | .LocalSubnet => qs.peek_canister_input .LocalSubnet

/-- `CanisterQueues::peek_input`: try up to three sources, advancing the
cursor past empty sources. -/
def CanisterQueues.peek_input (qs : CanisterQueues) :
    Option CanisterMessage × CanisterQueues :=
  match qs.peek_input_once with
  | (some m, qs) => (some m, qs)
  | (none, qs) =>
    let qs := { qs with next_input_queue := qs.next_input_queue.advance }
    match qs.peek_input_once with
    | (some m, qs) => (some m, qs)
    | (none, qs) =>
      let qs := { qs with next_input_queue := qs.next_input_queue.advance }
      match qs.peek_input_once with
      | (some m, qs) => (some m, qs)
      | (none, qs) => (none, { qs with next_input_queue := qs.next_input_queue.advance })

/-- Loop detector state (`CanisterQueuesLoopDetector`). -/
structure CanisterQueuesLoopDetector where
  local_queue_skip_count : Nat := 0
  remote_queue_skip_count : Nat := 0
  ingress_queue_skip_count : Nat := 0
deriving DecidableEq, Repr

/-- `CanisterQueuesLoopDetector::detected_loop`. -/
def CanisterQueuesLoopDetector.detected_loop (d : CanisterQueuesLoopDetector)
    (qs : CanisterQueues) : Bool :=
  qs.remote_subnet_input_schedule.length ≤ d.remote_queue_skip_count &&
  qs.local_subnet_input_schedule.length ≤ d.local_queue_skip_count &&
  qs.ingress_queue.ingress_schedule_size ≤ d.ingress_queue_skip_count

/-- `CanisterQueues::skip_input`. -/
def CanisterQueues.skip_input (qs : CanisterQueues) (d : CanisterQueuesLoopDetector) :
    CanisterQueues × CanisterQueuesLoopDetector :=
  match qs.next_input_queue with
  | .Ingress =>
    ({ qs with ingress_queue := qs.ingress_queue.skip_ingress_input
               next_input_queue := .RemoteSubnet },
     { d with ingress_queue_skip_count := d.ingress_queue_skip_count + 1 })
  | .RemoteSubnet =>
    ({ qs.skip_canister_input .RemoteSubnet with next_input_queue := .LocalSubnet },
     { d with remote_queue_skip_count := d.remote_queue_skip_count + 1 })
  | .LocalSubnet =>
    ({ qs.skip_canister_input .LocalSubnet with next_input_queue := .Ingress },
     { d with local_queue_skip_count := d.local_queue_skip_count + 1 })

/-- `CanisterQueues::push_output_request`: reserve a response slot in
the matching input queue, insert into the pool, push onto the output
queue. -/
def CanisterQueues.push_output_request (qs : CanisterQueues) (request : Request)
    (time : Time) : Except (StateError × Request) Unit × CanisterQueues :=
  let (pair, qs) := qs.get_or_insert_queues request.receiver
  let (input_queue, output_queue) := pair
  match output_queue.check_has_request_slot with
  | .error e => (.error (e, request), qs)
  | .ok _ =>
    match input_queue.try_reserve_response_slot with
    | .error e => (.error (e, request), qs)
    | .ok input_queue =>
      let queue_stats := qs.queue_stats.on_push_request request .Outbound
      let (id, pool) := qs.pool.insert_outbound_request request time
      let output_queue := output_queue.push_request id
      (.ok (),
       { qs with
         canister_queues :=
           alInsert qs.canister_queues request.receiver (input_queue, output_queue)
         queue_stats := queue_stats
         pool := pool })

/-- `CanisterQueues::push_output_response`: the protocol guarantees a
reserved output slot; the source panics when the queue is missing, which
is embedded as a no-op. -/
def CanisterQueues.push_output_response (qs : CanisterQueues) (response : Response) :
    CanisterQueues :=
  match alFind qs.canister_queues response.originator with
  | none => qs
  | some (input_queue, output_queue) =>
    let queue_stats := qs.queue_stats.on_push_response response .Outbound
    let (id, pool) := qs.pool.insert_outbound_response response
    let output_queue := output_queue.push_response id
    { qs with
      queue_stats := queue_stats
      pool := pool
      canister_queues :=
        alInsert qs.canister_queues response.originator (input_queue, output_queue) }

/-- `CanisterQueues::peek_output`: the non-stale message at the head of
the output queue (the source asserts non-staleness; a stale head is
embedded as `none`). -/
def CanisterQueues.peek_output (qs : CanisterQueues) (canister_id : CanisterId) :
    Option RequestOrResponse :=
  match alFind qs.canister_queues canister_id with
  | none => none
  | some (_, output_queue) =>
    match output_queue.peek with
    | none => none
    | some item => qs.pool.get item.id

/-- `CanisterQueues::induct_message_to_self`. -/
def CanisterQueues.induct_message_to_self (qs : CanisterQueues)
    (own_canister_id : CanisterId) : Except Unit Unit × CanisterQueues :=
  match qs.peek_output own_canister_id with
  | none => (.error (), qs)
  | some msg =>
    match qs.push_input msg .LocalSubnet with
    | (.error _, qs) => (.error (), qs)
    | (.ok _, qs) =>
      match alFind qs.canister_queues own_canister_id with
      | none => (.ok (), qs)
      | some (input_queue, output_queue) =>
        let (_, output_queue, pool) := pop_and_advance output_queue qs.pool
        (.ok (),
         { qs with
           pool := pool
           canister_queues :=
             alInsert qs.canister_queues own_canister_id (input_queue, output_queue) })

/-- `generate_timeout_response`: a `SYS_TRANSIENT` reject response
refunding the payment of the request. -/
def generate_timeout_response (request : Request) : Response :=
  { originator := request.sender
    respondent := request.receiver
    originator_reply_callback := request.sender_reply_callback
    refund := request.payment
    response_payload := .Reject (RejectContext.new_with_message_length_limit
      .SysTransient "Request timed out." MR_SYNTHETIC_REJECT_MESSAGE_MAX_LEN)
    deadline := request.deadline }

/-- `CanisterQueues::on_message_dropped`: restore head non-staleness in
the queue that held the dropped reference, then release slots, generate
a timeout reject response or forget the enqueued callback, as dictated
by the context and kind.  The source unwraps the queue pair lookup; a
missing pair (unreachable in reachable states) is embedded as a no-op. -/
def CanisterQueues.on_message_dropped (qs : CanisterQueues) (id : MessageId)
    (msg : RequestOrResponse) (own_canister_id : CanisterId)
    (local_canisters : List CanisterId) : CanisterQueues :=
  let context := id.context
  let remote :=
    match context with
    | .Inbound => msg.sender
    | .Outbound => msg.receiver
  match alFind qs.canister_queues remote with
  | none => qs
  | some (input_queue, output_queue) =>
    let fix := fun (queue : CanisterQueue) =>
      if queue.peek = some (.Reference id) then
        let (_, queue) := queue.pop
        queue.pop_while (fun item => (qs.pool.get item.id).isNone)
      else queue
    let (input_queue, output_queue) :=
      match context with
      | .Inbound => (fix input_queue, output_queue)
      | .Outbound => (input_queue, fix output_queue)
    match context, msg with
    | .Inbound, .request request =>
      let output_queue := output_queue.release_reserved_response_slot
      { qs with
        canister_queues := alInsert qs.canister_queues remote (input_queue, output_queue)
        queue_stats := qs.queue_stats.on_drop_input_request request }
    | .Outbound, .request request =>
      -- the destination equals `remote` (the receiver of the request)
      let response := generate_timeout_response request
      let queue_stats := qs.queue_stats.on_push_response response .Inbound
      let qs := { qs with
        callbacks_with_enqueued_response :=
          nsInsert qs.callbacks_with_enqueued_response response.originator_reply_callback }
      let (rid, pool) := qs.pool.insert_inbound (.response response)
      let input_queue := input_queue.push_response rid
      let qs := { qs with
        queue_stats := queue_stats
        pool := pool
        canister_queues := alInsert qs.canister_queues remote (input_queue, output_queue) }
      if input_queue.len = 1 ∧ ¬ nsMem qs.input_schedule_canisters remote then
        let qs := { qs with
          input_schedule_canisters := nsInsert qs.input_schedule_canisters remote }
        if remote = own_canister_id ∨ remote ∈ local_canisters then
          { qs with local_subnet_input_schedule := qs.local_subnet_input_schedule ++ [remote] }
        else
          { qs with remote_subnet_input_schedule := qs.remote_subnet_input_schedule ++ [remote] }
      else qs
    | .Inbound, .response response =>
      { qs with
        canister_queues := alInsert qs.canister_queues remote (input_queue, output_queue)
        callbacks_with_enqueued_response :=
          nsErase qs.callbacks_with_enqueued_response response.originator_reply_callback }
    | .Outbound, .response _ =>
      { qs with
        canister_queues := alInsert qs.canister_queues remote (input_queue, output_queue) }

/-- `CanisterQueues::time_out_messages`: expire pool messages, handle
each dropped message, return the number of expired messages. -/
def CanisterQueues.time_out_messages (qs : CanisterQueues) (current_time : Time)
    (own_canister_id : CanisterId) (local_canisters : List CanisterId) :
    Nat × CanisterQueues :=
  let (expired, pool) := qs.pool.expire_messages current_time
  let qs := { qs with pool := pool }
  let qs := expired.foldl
    (fun qs e => qs.on_message_dropped e.1 e.2 own_canister_id local_canisters) qs
  (expired.length, qs)

/-- `CanisterQueues::shed_largest_message`. -/
def CanisterQueues.shed_largest_message (qs : CanisterQueues)
    (own_canister_id : CanisterId) (local_canisters : List CanisterId) :
    Bool × CanisterQueues :=
  match qs.pool.shed_largest_message with
  | (some (id, msg), pool) =>
    let qs := { qs with pool := pool }
    (true, qs.on_message_dropped id msg own_canister_id local_canisters)
  | (none, pool) => (false, { qs with pool := pool })

/-- `CanisterQueues::garbage_collect_impl`: drop queue pairs with no
used slots. -/
def CanisterQueues.garbage_collect_impl (qs : CanisterQueues) : CanisterQueues :=
  if qs.canister_queues.isEmpty then qs
  else
    { qs with
      canister_queues := qs.canister_queues.filter
        (fun e => e.2.1.has_used_slots || e.2.2.has_used_slots) }

/-- `CanisterQueues::garbage_collect`: after dropping empty pairs, reset
the cursor and the pool to defaults when nothing remains. -/
def CanisterQueues.garbage_collect (qs : CanisterQueues) : CanisterQueues :=
  let qs := qs.garbage_collect_impl
  if qs.canister_queues.isEmpty && qs.ingress_queue.is_empty then
    { qs with next_input_queue := .Ingress, pool := {} }
  else qs

theorem canister_queue_pop_len (q : CanisterQueue) (item : CanisterQueueItem)
    (h : q.peek = some item) : (q.pop).2.len + 1 = q.len := by
  cases hq : q.queue with
  | nil => simp [CanisterQueue.peek, hq] at h
  | cons x rest => simp [CanisterQueue.pop, CanisterQueue.len, hq]

/-- Inner loop of `CanisterQueues::output_queues_for_each` on one output
queue: pop stale references; pop messages accepted by `f`; stop at the
first message `f` rejects.  The Rust closure is embedded as a pure
function threading an explicit state; the loop carries an explicit
iteration bound (the queue length), which it never exhausts. -/
def output_queue_for_each_go {σ : Type} (f : σ → CanisterId → RequestOrResponse → Bool × σ)
    (canister_id : CanisterId) :
    Nat → CanisterQueue → MessagePool → σ → CanisterQueue × MessagePool × σ
  | 0, queue, pool, s => (queue, pool, s)
  | fuel + 1, queue, pool, s =>
    match queue.peek with
    | none => (queue, pool, s)
    | some item =>
      match pool.get item.id with
      | none =>
        output_queue_for_each_go f canister_id fuel (queue.pop).2 pool s
      | some msg =>
        match f s canister_id msg with
        | (false, s) => (queue, pool, s)
        | (true, s) =>
          let (_, pool) := pool.take item.id
          output_queue_for_each_go f canister_id fuel (queue.pop).2 pool s

/-- `CanisterQueues::output_queues_for_each`. -/
def CanisterQueues.output_queues_for_each {σ : Type} (qs : CanisterQueues)
    (f : σ → CanisterId → RequestOrResponse → Bool × σ) (s : σ) : CanisterQueues × σ :=
  let acc := qs.canister_queues.foldl
    (fun (acc : List (Nat × (CanisterQueue × CanisterQueue)) × MessagePool × σ) e =>
      let (done, pool, s) := acc
      let (canister_id, (iq, oq)) := e
      let (oq, pool, s) := output_queue_for_each_go f canister_id oq.len oq pool s
      (done ++ [(canister_id, (iq, oq))], pool, s))
    ([], qs.pool, s)
  ({ qs with canister_queues := acc.1, pool := acc.2.1 }, acc.2.2)

/-- `CanisterQueues::has_input`. -/
def CanisterQueues.has_input (qs : CanisterQueues) : Bool :=
  !qs.ingress_queue.is_empty || qs.pool.message_stats.inbound_message_count ≠ 0

/-- `CanisterQueues::has_output`. -/
def CanisterQueues.has_output (qs : CanisterQueues) : Bool :=
  qs.pool.message_stats.outbound_message_count ≠ 0

end ICQ

deriving instance DecidableEq for Except

namespace ICQ

/-! ## Pool operation traces (claims C5, C7, C10)

A reachable pool state is one produced from the default pool by a
sequence of public pool operations. -/

/-- One public operation of `MessagePool`.  The placeholder argument of
`replaceInboundTimeoutResponse` is guarded by the provenance properties
that the affine Rust `ResponsePlaceholder` type guarantees (issued by
this pool, with inbound best-effort response bits, not yet used). -/
inductive PoolOp
  | insertInbound (msg : RequestOrResponse)
  | insertOutboundRequest (request : Request) (now : Time)
  | insertOutboundResponse (response : Response)
  | insertInboundTimeoutResponse
  | replaceInboundTimeoutResponse (placeholder : MessageId) (msg : RequestOrResponse)
  | take (id : MessageId)
  | expireMessages (now : Time)
  | shedLargestMessage
deriving DecidableEq, Repr

/-- Apply one pool operation, discarding the returned value. -/
def PoolOp.apply (pool : MessagePool) : PoolOp → MessagePool
  | .insertInbound msg => (pool.insert_inbound msg).2
  | .insertOutboundRequest request now => (pool.insert_outbound_request request now).2
  | .insertOutboundResponse response => (pool.insert_outbound_response response).2
  | .insertInboundTimeoutResponse => (pool.insert_inbound_timeout_response).2
  | .replaceInboundTimeoutResponse placeholder msg =>
    if placeholder.kind = Kind.Response ∧ placeholder.context = Context.Inbound ∧
        placeholder.cls = Class.BestEffort ∧
        placeholder.counter < pool.message_id_generator ∧ (pool.get placeholder).isNone then
      pool.replace_inbound_timeout_response placeholder msg
    else pool
  | .take id => (pool.take id).2
  | .expireMessages now => (pool.expire_messages now).2
  | .shedLargestMessage => (pool.shed_largest_message).2

/-- Execute a trace of pool operations from the default pool. -/
def execPoolOps (ops : List PoolOp) : MessagePool :=
  ops.foldl PoolOp.apply {}

/-- The ids issued by the generator while performing one operation. -/
def PoolOp.issued (pool : MessagePool) : PoolOp → List MessageId
  | .insertInbound msg => [(pool.insert_inbound msg).1]
  | .insertOutboundRequest request now => [(pool.insert_outbound_request request now).1]
  | .insertOutboundResponse response => [(pool.insert_outbound_response response).1]
  | .insertInboundTimeoutResponse => [(pool.insert_inbound_timeout_response).1]
  | _ => []

/-- All ids issued along a trace starting at the given pool. -/
def issuedIdsFrom (pool : MessagePool) : List PoolOp → List MessageId
  | [] => []
  | op :: ops => PoolOp.issued pool op ++ issuedIdsFrom (PoolOp.apply pool op) ops

/-- All ids issued along a trace from the default pool. -/
def issuedIds (ops : List PoolOp) : List MessageId :=
  issuedIdsFrom {} ops

/-! ## Pool tag invariants (claims C7, C10) -/

/-- Tag consistency: the kind and class bits of every stored id match
its message (kind `Request` iff the message is a request; class
`GuaranteedResponse` iff the deadline is the zero sentinel). -/
def TagConsistent (pool : MessagePool) : Prop :=
  ∀ e ∈ pool.messages,
    (MessageId.mk e.1).kind = Kind.ofMsg e.2 ∧ (MessageId.mk e.1).cls = Class.ofMsg e.2

/-- The load shedding queue refers only to best-effort ids. -/
def SizeQueueBestEffort (pool : MessagePool) : Prop :=
  ∀ e ∈ pool.size_queue, e.2.cls = Class.BestEffort

/-- Conjunction of the two pool tag invariants. -/
def PoolTagInv (pool : MessagePool) : Prop :=
  TagConsistent pool ∧ SizeQueueBestEffort pool

/-- Postcondition of the expiration loop, relating the initial pool and
accumulator to the result: absent keys stay absent, keys with an expired
deadline queue entry are gone, other keys keep their bindings, the output
collects exactly the resident expired messages, the remaining deadline
queue has no expired head, and the message keys stay duplicate-free. -/
def ExpireGoSpec (now : Nat) (pool : MessagePool)
    (acc : List (MessageId × RequestOrResponse))
    (r : List (MessageId × RequestOrResponse) × MessagePool) : Prop :=
  (∀ k, alFind pool.messages k = none → alFind r.2.messages k = none) ∧
  (∀ (j : MessageId) (d : Nat), (d, j) ∈ pool.deadline_queue → d < now →
      alFind r.2.messages j.bits = none) ∧
  (∀ j : MessageId, (∀ d : Nat, (d, j) ∈ pool.deadline_queue → ¬ d < now) →
      alFind r.2.messages j.bits = alFind pool.messages j.bits) ∧
  (∀ p : MessageId × RequestOrResponse,
      p ∈ r.1 ↔ (p ∈ acc ∨
        (alFind pool.messages p.1.bits = some p.2 ∧
          ∃ d : Nat, (d, p.1) ∈ pool.deadline_queue ∧ d < now))) ∧
  (∀ (d : Nat) (id : MessageId) (rest : List (CoarseTime × MessageId)),
      heapPopMax dlHeapLt r.2.deadline_queue = some ((d, id), rest) → now ≤ d) ∧
  (r.2.messages.map Prod.fst).Nodup

/-- A concrete pool holding one expired best-effort response, used to
instantiate the expiration theorem. -/
def c6msg : RequestOrResponse :=
  .response { originator := 1
              respondent := 2
              originator_reply_callback := 3
              refund := 0
              response_payload := .Data 7
              deadline := 5 }

def c6pool : MessagePool :=
  { messages := [(12, c6msg)]
    deadline_queue := [(5, ⟨12⟩)]
    size_queue := [(c6msg.count_bytes, ⟨12⟩)]
    message_id_generator := 2 }

/-- The fixed guaranteed-response request of the backpressure scenario
(S1): receiver canister 2, pushed repeatedly from canister 9. -/
def c4req : Request :=
  { sender := 9
    receiver := 2
    sender_reply_callback := 3
    payment := 0
    deadline := 0
    payload_size_bytes := 100 }
def c4resp : Response :=
  { originator := 9
    respondent := 2
    originator_reply_callback := 3
    refund := 0
    response_payload := .Data 100
    deadline := 0 }
def c4iterFrom (s : CanisterQueues) : Nat → CanisterQueues
  | 0 => s
  | n + 1 => ((c4iterFrom s n).push_output_request c4req 0).2
def c4refs (i : Nat) : List CanisterQueueItem :=
  (List.range i).map (fun k => .Reference ⟨2 + k * 8⟩)
def c4msgs (i : Nat) : List (Nat × RequestOrResponse) :=
  (List.range i).map (fun k => (2 + k * 8, .request c4req))
def c4dq (i : Nat) : List (CoarseTime × MessageId) :=
  (List.range i).map (fun k => (300, ⟨2 + k * 8⟩))
def c4state (i : Nat) : CanisterQueues :=
  { canister_queues := [(2,
      ({ reserved_slots := i }, { queue := c4refs i }))]
    pool := { messages := c4msgs i
              message_stats := { size_bytes := 100 * i
                                 outbound_message_count := i }
              deadline_queue := c4dq i
              message_id_generator := i }
    queue_stats := { guaranteed_response_memory_reservations := i
                     input_queues_reserved_slots := i } }


/-- Modelled from the spec: the stated well-formedness invariants of a
message pool — the map iterates in strictly ascending id order, the tag
bits of every id match its message, every id was issued below the
generator, the deadline queue holds only best-effort ids and outbound
guaranteed request ids and agrees with the deadline of every resident
best-effort message, every message that must expire has a deadline queue
entry, the load shedding queue covers the best-effort messages, and the
stats are the calculated stats. -/
def PoolWF (pool : MessagePool) : Prop :=
  pool.messages.Pairwise (fun a b => a.1 < b.1) ∧
  TagConsistent pool ∧
  (∀ e ∈ pool.messages, e.1 / 8 < pool.message_id_generator) ∧
  (∀ e ∈ pool.deadline_queue,
      e.2.cls = Class.BestEffort ∨ e.2.bits % 8 = OUTBOUND_GUARANTEED_REQUEST) ∧
  (∀ e ∈ pool.deadline_queue, ∀ p ∈ pool.messages,
      p.1 = e.2.bits → e.2.cls = Class.BestEffort → p.2.deadline = e.1) ∧
  (∀ b ∈ poolDeadlineIds pool.messages, ∃ e ∈ pool.deadline_queue, e.2.bits = b) ∧
  (∀ e ∈ pool.size_queue, e.2.cls = Class.BestEffort) ∧
  (∀ b ∈ poolBestEffortIds pool.messages, ∃ e ∈ pool.size_queue, e.2.bits = b) ∧
  pool.message_stats = MessagePool.calculate_message_stats pool.messages

def c9pool : MessagePool :=
  (({} : MessagePool).insert_inbound (.request { sender := 1
                                                 receiver := 2
                                                 sender_reply_callback := 7
                                                 payment := 0
                                                 deadline := 5
                                                 payload_size_bytes := 10 })).2


/-- C1 trace: best-effort outbound request from canister 9 to canister 3,
deadline 10 s. -/
def c1r3 : Request := { sender := 9, receiver := 3, sender_reply_callback := 1, payment := 0, deadline := 10, payload_size_bytes := 10 }

/-- C1 trace: best-effort inbound request from canister 3. -/
def c1reqA : Request := { sender := 3, receiver := 9, sender_reply_callback := 2, payment := 0, deadline := 40, payload_size_bytes := 10 }

/-- C1 trace: best-effort inbound response from canister 3. -/
def c1resp3 : Response := { originator := 9, respondent := 3, originator_reply_callback := 1, refund := 0, response_payload := .Data 99, deadline := 60 }

/-- C1 trace: first best-effort outbound request to canister 2. -/
def c1b1 : Request := { sender := 9, receiver := 2, sender_reply_callback := 3, payment := 0, deadline := 20, payload_size_bytes := 10 }

/-- C1 trace: second best-effort outbound request to canister 2. -/
def c1b2 : Request := { sender := 9, receiver := 2, sender_reply_callback := 4, payment := 0, deadline := 30, payload_size_bytes := 10 }

/-- C1 trace, step 1: push the outbound request to canister 3 (pool id 6). -/
def c1s1 := ({} : CanisterQueues).push_output_request c1r3 0

/-- C1 trace, step 2: push the inbound request (pool id 12). -/
def c1s2 := c1s1.2.push_input (.request c1reqA) .LocalSubnet

/-- C1 trace, step 3: push the inbound response (pool id 21); the input
queue from canister 3 is now [12, 21]. -/
def c1s3 := c1s2.2.push_input (.response c1resp3) .LocalSubnet

/-- C1 trace, step 4: shed the largest best-effort message (id 21),
leaving a stale reference behind the head of the queue from canister 3. -/
def c1s4 := c1s3.2.shed_largest_message 9 []

/-- C1 trace, steps 5 and 6: push the two outbound requests to
canister 2 (pool ids 22 and 30). -/
def c1s6 : CanisterQueues := ((c1s4.2.push_output_request c1b1 0).2.push_output_request c1b2 0).2

/-- C1 trace, step 7: at 45 s every pooled message has expired.  The
expiration batch empties the pool, `maybe_trim_queues` resets the id
generator, and the three timeout responses are issued ids 5, 13 and 21:
id 21 aliases the stale reference left in step 4. -/
def c1s7 := c1s6.time_out_messages 45000000000 9 []

/-- C1 trace: the timeout response for `c1b2`, delivered by the second
`pop_input` through the aliased reference 21 in the queue from
canister 3. -/
def c1tr : Response := { originator := 9, respondent := 2, originator_reply_callback := 4, refund := 0, response_payload := .Reject { code := .SysTransient, message := "Request timed out." }, deadline := 30 }

/-- C1 trace, steps 8 and 9: two `pop_input` calls.  The second one pops
the queue from canister 3, whose aliased head reference 21 now resolves
to the timeout response meant for the queue from canister 2, taking
message 21 out of the pool while the queue from canister 2 still has
reference 21 at its head. -/
def c1final : CanisterQueues := (c1s7.2.pop_input.2.pop_input).2

/-! ## Claim theorems -/

theorem MessageId.new_kind (k : Kind) (c : Context) (cl : Class) (g : Nat) :
    (MessageId.new k c cl g).kind = k := by
  cases k <;> cases c <;> cases cl <;>
    simp [MessageId.new, MessageId.kind, Kind.bit, Context.bit, Class.bit] <;> omega

theorem MessageId.new_context (k : Kind) (c : Context) (cl : Class) (g : Nat) :
    (MessageId.new k c cl g).context = c := by
  cases k <;> cases c <;> cases cl <;>
    simp [MessageId.new, MessageId.context, Kind.bit, Context.bit, Class.bit] <;> omega

theorem MessageId.new_cls (k : Kind) (c : Context) (cl : Class) (g : Nat) :
    (MessageId.new k c cl g).cls = cl := by
  cases k <;> cases c <;> cases cl <;>
    simp [MessageId.new, MessageId.cls, Kind.bit, Context.bit, Class.bit] <;> omega

theorem MessageId.new_counter (k : Kind) (c : Context) (cl : Class) (g : Nat) :
    (MessageId.new k c cl g).counter = g := by
  cases k <;> cases c <;> cases cl <;>
    simp [MessageId.new, MessageId.counter, Kind.bit, Context.bit, Class.bit] <;> omega

theorem mem_alInsert {β : Type} (l : List (Nat × β)) (k : Nat) (v : β) (e : Nat × β)
    (h : e ∈ alInsert l k v) : e = (k, v) ∨ e ∈ l := by
  induction l with
  | nil => simpa [alInsert] using h
  | cons x rest ih =>
    unfold alInsert at h
    split at h
    · rcases List.mem_cons.mp h with h1 | h1
      · exact Or.inl h1
      · exact Or.inr h1
    · split at h
      · rcases List.mem_cons.mp h with h1 | h1
        · exact Or.inl h1
        · exact Or.inr (List.mem_cons_of_mem _ h1)
      · rcases List.mem_cons.mp h with h1 | h1
        · exact Or.inr (h1 ▸ List.mem_cons_self _ _)
        · rcases ih h1 with h2 | h2
          · exact Or.inl h2
          · exact Or.inr (List.mem_cons_of_mem _ h2)

theorem mem_alErase {β : Type} (l : List (Nat × β)) (k : Nat) (e : Nat × β)
    (h : e ∈ alErase l k) : e ∈ l := by
  induction l with
  | nil => simpa [alErase] using h
  | cons x rest ih =>
    unfold alErase at h
    split at h
    · exact List.mem_cons_of_mem _ h
    · rcases List.mem_cons.mp h with h1 | h1
      · exact h1 ▸ List.mem_cons_self _ _
      · exact List.mem_cons_of_mem _ (ih h1)

theorem heapPopMax_rest_mem {α : Type} (lt : α → α → Bool) (l : List α) (m : α)
    (rest : List α) (h : heapPopMax lt l = some (m, rest)) : ∀ e ∈ rest, e ∈ l := by
  induction l generalizing m rest with
  | nil => simp [heapPopMax] at h
  | cons x xs ih =>
    simp only [heapPopMax] at h
    cases hx : heapPopMax lt xs with
    | none =>
      rw [hx] at h
      have hnil := heapPopMax_eq_none lt xs hx
      subst hnil
      cases h
      intro e he
      cases he
    | some p =>
      rw [hx] at h
      obtain ⟨m0, rest0⟩ := p
      simp only at h
      split at h
      · cases h
        intro e he
        rcases List.mem_cons.mp he with h1 | h1
        · exact h1 ▸ List.mem_cons_self _ _
        · exact List.mem_cons_of_mem _ (ih _ _ hx e h1)
      · cases h
        intro e he
        exact List.mem_cons_of_mem _ he

theorem heapPopMax_max_mem {α : Type} (lt : α → α → Bool) (l : List α) (m : α)
    (rest : List α) (h : heapPopMax lt l = some (m, rest)) : m ∈ l := by
  induction l generalizing m rest with
  | nil => simp [heapPopMax] at h
  | cons x xs ih =>
    simp only [heapPopMax] at h
    cases hx : heapPopMax lt xs with
    | none =>
      rw [hx] at h
      cases h
      exact List.mem_cons_self _ _
    | some p =>
      rw [hx] at h
      obtain ⟨m0, rest0⟩ := p
      simp only at h
      split at h
      · cases h
        exact List.mem_cons_of_mem _ (ih _ _ hx)
      · cases h
        exact List.mem_cons_self _ _

theorem cls_ofMsg_best_effort (msg : RequestOrResponse) :
    Class.ofMsg msg = Class.BestEffort ↔ msg.is_best_effort = true := by
  cases msg with
  | request req =>
    show (if req.deadline = NO_DEADLINE then Class.GuaranteedResponse else Class.BestEffort)
        = Class.BestEffort ↔ (req.deadline != NO_DEADLINE) = true
    by_cases h : req.deadline = NO_DEADLINE
    · simp [h]
    · simp [h]
  | response rep =>
    show (if rep.deadline = NO_DEADLINE then Class.GuaranteedResponse else Class.BestEffort)
        = Class.BestEffort ↔ (rep.deadline != NO_DEADLINE) = true
    by_cases h : rep.deadline = NO_DEADLINE
    · simp [h]
    · simp [h]

theorem insert_impl_eq (pool : MessagePool) (msg : RequestOrResponse)
    (deadline : CoarseTime) (context : Context) :
    pool.insert_impl msg deadline context =
      (MessageId.new (Kind.ofMsg msg) context (Class.ofMsg msg) pool.message_id_generator,
       { messages := alInsert pool.messages
           (MessageId.new (Kind.ofMsg msg) context (Class.ofMsg msg)
             pool.message_id_generator).bits msg
         message_stats := pool.message_stats.add (MessageStats.stats_delta msg context)
         deadline_queue :=
           if deadline ≠ NO_DEADLINE then
             pool.deadline_queue ++ [(deadline,
               MessageId.new (Kind.ofMsg msg) context (Class.ofMsg msg)
                 pool.message_id_generator)]
           else pool.deadline_queue
         size_queue :=
           if msg.is_best_effort then
             pool.size_queue ++ [(msg.count_bytes,
               MessageId.new (Kind.ofMsg msg) context (Class.ofMsg msg)
                 pool.message_id_generator)]
           else pool.size_queue
         message_id_generator := pool.message_id_generator + 1 }) := by
  unfold MessagePool.insert_impl MessagePool.next_message_id
  dsimp only
  split <;> split <;> rfl

theorem insert_impl_tag_inv (pool : MessagePool) (msg : RequestOrResponse)
    (deadline : CoarseTime) (context : Context) (h : PoolTagInv pool) :
    PoolTagInv (pool.insert_impl msg deadline context).2 := by
  obtain ⟨htag, hsq⟩ := h
  rw [insert_impl_eq]
  constructor
  · intro e he
    simp only at he
    rcases mem_alInsert _ _ _ _ he with h1 | h1
    · rw [h1]
      exact ⟨MessageId.new_kind _ _ _ _, MessageId.new_cls _ _ _ _⟩
    · exact htag e h1
  · intro e he
    simp only at he
    split at he
    · rcases List.mem_append.mp he with h1 | h1
      · exact hsq e h1
      · simp only [List.mem_singleton] at h1
        rw [h1]
        have hbe : Class.ofMsg msg = Class.BestEffort := by
          rw [cls_ofMsg_best_effort]
          assumption
        simpa [MessageId.new_cls] using hbe
    · exact hsq e he

theorem maybe_trim_tag_inv (pool : MessagePool) (h : PoolTagInv pool) :
    PoolTagInv pool.maybe_trim_queues := by
  obtain ⟨htag, hsq⟩ := h
  unfold MessagePool.maybe_trim_queues
  dsimp only
  split
  · exact ⟨fun e he => (by cases he), fun e he => (by cases he)⟩
  · split <;> split <;>
      refine ⟨fun e he => htag e he, fun e he => ?_⟩ <;>
      first
      | exact hsq e (List.mem_of_mem_filter he)
      | exact hsq e he

theorem take_tag_inv (pool : MessagePool) (id : MessageId) (h : PoolTagInv pool) :
    PoolTagInv (pool.take id).2 := by
  obtain ⟨htag, hsq⟩ := h
  unfold MessagePool.take
  split
  · exact ⟨htag, hsq⟩
  · exact maybe_trim_tag_inv _ ⟨fun e he => htag e (mem_alErase _ _ _ he), hsq⟩

theorem dq_set_tag_inv (pool : MessagePool) (dq : List (CoarseTime × MessageId))
    (h : PoolTagInv pool) : PoolTagInv { pool with deadline_queue := dq } := by
  obtain ⟨htag, hsq⟩ := h
  exact ⟨htag, hsq⟩

theorem sq_rest_tag_inv (pool : MessagePool) (sq : List (Nat × MessageId))
    (hsub : ∀ e ∈ sq, e ∈ pool.size_queue) (h : PoolTagInv pool) :
    PoolTagInv { pool with size_queue := sq } := by
  obtain ⟨htag, hsq⟩ := h
  exact ⟨htag, fun e he => hsq e (hsub e he)⟩

theorem expire_go_tag_inv (now : CoarseTime) (fuel : Nat) (pool : MessagePool)
    (acc : List (MessageId × RequestOrResponse)) (h : PoolTagInv pool) :
    PoolTagInv (MessagePool.expire_messages_go now fuel pool acc).2 := by
  induction fuel generalizing pool acc with
  | zero => exact h
  | succ fuel ih =>
    unfold MessagePool.expire_messages_go
    cases hpop : heapPopMax dlHeapLt pool.deadline_queue with
    | none => exact h
    | some p =>
      obtain ⟨⟨deadline, id⟩, rest⟩ := p
      dsimp only
      split
      · exact h
      · have hinv := take_tag_inv { pool with deadline_queue := rest } id
          (dq_set_tag_inv _ _ h)
        rcases htake : MessagePool.take { pool with deadline_queue := rest } id with
          ⟨tmsg, tpool⟩
        rw [htake] at hinv
        cases tmsg with
        | some msg => exact ih tpool _ hinv
        | none => exact ih tpool _ hinv

theorem expire_tag_inv (pool : MessagePool) (now : Time) (h : PoolTagInv pool) :
    PoolTagInv (pool.expire_messages now).2 := by
  unfold MessagePool.expire_messages
  split
  · exact h
  · exact expire_go_tag_inv _ _ _ _ h

theorem shed_go_tag_inv (fuel : Nat) (pool : MessagePool) (h : PoolTagInv pool) :
    PoolTagInv (MessagePool.shed_go fuel pool).2 := by
  induction fuel generalizing pool with
  | zero => exact h
  | succ fuel ih =>
    unfold MessagePool.shed_go
    cases hpop : heapPopMax szHeapLt pool.size_queue with
    | none => exact h
    | some p =>
      obtain ⟨⟨sz, id⟩, rest⟩ := p
      dsimp only
      have hinv := take_tag_inv { pool with size_queue := rest } id
        (sq_rest_tag_inv _ _ (heapPopMax_rest_mem _ _ _ _ hpop) h)
      rcases htake : MessagePool.take { pool with size_queue := rest } id with ⟨tmsg, tpool⟩
      rw [htake] at hinv
      cases tmsg with
      | some msg => exact hinv
      | none => exact ih tpool hinv

theorem shed_tag_inv (pool : MessagePool) (h : PoolTagInv pool) :
    PoolTagInv (pool.shed_largest_message).2 :=
  shed_go_tag_inv _ _ h

theorem replace_tag_inv (pool : MessagePool) (placeholder : MessageId)
    (msg : RequestOrResponse)
    (hk : placeholder.kind = Kind.Response) (hc : placeholder.cls = Class.BestEffort)
    (h : PoolTagInv pool) :
    PoolTagInv (pool.replace_inbound_timeout_response placeholder msg) := by
  obtain ⟨htag, hsq⟩ := h
  unfold MessagePool.replace_inbound_timeout_response
  cases msg with
  | request req => exact ⟨htag, hsq⟩
  | response rep =>
    dsimp only
    split
    · constructor
      · intro e he
        simp only at he
        rcases mem_alInsert _ _ _ _ he with h1 | h1
        · rw [h1]
          have hcls : Class.ofMsg (.response rep) = Class.BestEffort := by
            unfold Class.ofMsg
            simp_all
          constructor
          · show (MessageId.mk placeholder.bits).kind = Kind.ofMsg (.response rep)
            unfold Kind.ofMsg
            exact hk
          · show (MessageId.mk placeholder.bits).cls = Class.ofMsg (.response rep)
            rw [hcls]
            exact hc
        · exact htag e h1
      · intro e he
        simp only at he
        rcases List.mem_append.mp he with h1 | h1
        · exact hsq e h1
        · simp only [List.mem_singleton] at h1
          rw [h1]
          exact hc
    · exact ⟨htag, hsq⟩

theorem poolOp_tag_inv (pool : MessagePool) (op : PoolOp) (h : PoolTagInv pool) :
    PoolTagInv (PoolOp.apply pool op) := by
  cases op with
  | insertInbound msg => exact insert_impl_tag_inv _ _ _ _ h
  | insertOutboundRequest request now => exact insert_impl_tag_inv _ _ _ _ h
  | insertOutboundResponse response => exact insert_impl_tag_inv _ _ _ _ h
  | insertInboundTimeoutResponse =>
    obtain ⟨htag, hsq⟩ := h
    exact ⟨htag, hsq⟩
  | replaceInboundTimeoutResponse placeholder msg =>
    simp only [PoolOp.apply]
    split
    · next hcond => exact replace_tag_inv _ _ _ hcond.1 hcond.2.2.1 h
    · exact h
  | take id => exact take_tag_inv _ _ h
  | expireMessages now => exact expire_tag_inv _ _ h
  | shedLargestMessage => exact shed_tag_inv _ h

theorem execPoolOps_tag_inv (ops : List PoolOp) : PoolTagInv (execPoolOps ops) := by
  have init : PoolTagInv ({} : MessagePool) :=
    ⟨fun e he => (by cases he), fun e he => (by cases he)⟩
  unfold execPoolOps
  generalize hstart : ({} : MessagePool) = start at init ⊢
  clear hstart
  induction ops generalizing start with
  | nil => exact init
  | cons op ops ih =>
    simp only [List.foldl_cons]
    exact ih _ (poolOp_tag_inv _ _ init)

theorem alFind_mem {β : Type} (l : List (Nat × β)) (k : Nat) (v : β)
    (h : alFind l k = some v) : (k, v) ∈ l := by
  induction l with
  | nil => simp [alFind] at h
  | cons x rest ih =>
    unfold alFind at h
    split at h
    · next heq =>
      simp only [Option.some.injEq] at h
      have : x = (k, v) := by
        obtain ⟨x1, x2⟩ := x
        simp_all
      exact this ▸ List.mem_cons_self _ _
    · exact List.mem_cons_of_mem _ (ih h)

theorem take_fst_some (pool : MessagePool) (id : MessageId) (msg : RequestOrResponse)
    (h : (pool.take id).1 = some msg) : alFind pool.messages id.bits = some msg := by
  unfold MessagePool.take at h
  split at h
  · simp at h
  · next msg0 hfind =>
    simp only [Option.some.injEq] at h
    rw [hfind, h]

theorem shed_go_result_best_effort (fuel : Nat) (pool : MessagePool) (id : MessageId)
    (msg : RequestOrResponse) (h : PoolTagInv pool)
    (hshed : (MessagePool.shed_go fuel pool).1 = some (id, msg)) :
    msg.is_best_effort = true := by
  induction fuel generalizing pool with
  | zero => cases hshed
  | succ fuel ih =>
    unfold MessagePool.shed_go at hshed
    cases hpop : heapPopMax szHeapLt pool.size_queue with
    | none =>
      rw [hpop] at hshed
      cases hshed
    | some p =>
      obtain ⟨⟨sz, id0⟩, rest⟩ := p
      rw [hpop] at hshed
      dsimp only at hshed
      have hinv := take_tag_inv { pool with size_queue := rest } id0
        (sq_rest_tag_inv _ _ (heapPopMax_rest_mem _ _ _ _ hpop) h)
      rcases htake : MessagePool.take { pool with size_queue := rest } id0 with ⟨tmsg, tpool⟩
      rw [htake] at hinv
      rw [htake] at hshed
      cases tmsg with
      | some msg0 =>
        simp only [Option.some.injEq, Prod.mk.injEq] at hshed
        obtain ⟨hid, hmsg⟩ := hshed
        have hfind : alFind pool.messages id0.bits = some msg0 := by
          have := take_fst_some { pool with size_queue := rest } id0 msg0 (by rw [htake])
          exact this
        have hmem := alFind_mem _ _ _ hfind
        have htag := h.1 (id0.bits, msg0) hmem
        have hsq := h.2 (sz, id0) (heapPopMax_max_mem _ _ _ _ hpop)
        have hcls : Class.ofMsg msg0 = Class.BestEffort := by
          have heta : MessageId.mk id0.bits = id0 := by
            obtain ⟨b⟩ := id0
            rfl
          rw [heta] at htag
          rw [← htag.2]
          exact hsq
        rw [← hmsg, ← cls_ofMsg_best_effort]
        exact hcls
      | none => exact ih tpool hinv hshed

theorem shed_result_best_effort (pool : MessagePool) (id : MessageId)
    (msg : RequestOrResponse) (h : PoolTagInv pool)
    (hshed : (pool.shed_largest_message).1 = some (id, msg)) :
    msg.is_best_effort = true :=
  shed_go_result_best_effort _ _ _ _ h hshed

theorem checkTagLoop_ok (l : List (Nat × RequestOrResponse))
    (h : checkTagLoop l = .ok ()) :
    ∀ e ∈ l, (MessageId.mk e.1).kind = Kind.ofMsg e.2 ∧
      (MessageId.mk e.1).cls = Class.ofMsg e.2 := by
  induction l with
  | nil => intro e he; cases he
  | cons x rest ih =>
    unfold checkTagLoop at h
    split at h
    · cases h
    · split at h
      · cases h
      · next hkind hcls =>
        intro e he
        rcases List.mem_cons.mp he with h1 | h1
        · subst h1
          exact ⟨Decidable.not_not.mp hkind, Decidable.not_not.mp hcls⟩
        · exact ih h e h1

theorem try_from_ok (pb : PbMessagePool) (pool : MessagePool)
    (h : MessagePool.try_from pb = .ok pool) :
    pool.check_invariants = .ok () ∧
      pool.messages = pb.messages.foldl (fun m e => alInsert m e.1 e.2) [] := by
  unfold MessagePool.try_from at h
  dsimp only at h
  split at h
  · cases h
  · split at h
    · next u hchk =>
      simp only [Except.ok.injEq] at h
      subst h
      exact ⟨by rw [hchk], rfl⟩
    · cases h

theorem check_invariants_ok_tags (pool : MessagePool)
    (h : pool.check_invariants = .ok ()) : TagConsistent pool := by
  unfold MessagePool.check_invariants at h
  cases htl : checkTagLoop pool.messages with
  | error e =>
    rw [htl] at h
    simp [Bind.bind, Except.bind] at h
  | ok u =>
    obtain ⟨⟩ := u
    exact checkTagLoop_ok _ htl

/-! ## Claim C2: duplicate-response handling in `push_input` -/

/-- C2: when a response arrives whose callback already has an enqueued
response and the input queue from the sender has a reserved slot, a
guaranteed response fails with `NonMatchingResponse` `Duplicate
response` and a best-effort response silently succeeds; in both cases
the state is unchanged (nothing is enqueued). -/
theorem C2_push_input_duplicate_response (qs : CanisterQueues) (response : Response)
    (t : InputQueueType) (queue oq : CanisterQueue)
    (hfind : alFind qs.canister_queues response.respondent = some (queue, oq))
    (hslot : queue.reserved_slots ≠ 0)
    (hdup : nsMem qs.callbacks_with_enqueued_response response.originator_reply_callback
      = true) :
    qs.push_input (.response response) t =
      (if response.deadline = NO_DEADLINE then
        (.error (nonMatchingResponse "Duplicate response" response, .response response), qs)
      else (.ok (), qs)) := by
  unfold CanisterQueues.push_input
  simp only [RequestOrResponse.sender, hfind]
  have hchk : (queue.check_has_reserved_response_slot).isOk = true := by
    unfold CanisterQueue.check_has_reserved_response_slot
    rw [if_neg hslot]
    rfl
  simp [hchk, hdup]

/-- Witness for C2 (the best-effort instance, scenario S3): a state with
a reserved slot and callback 0 already enqueued; the duplicate
best-effort push returns success and leaves the state unchanged. -/
theorem C2_push_input_duplicate_response_witness :
    (CanisterQueues.push_input
      { canister_queues :=
          [(2, ({ queue := [], reserved_slots := 1 : CanisterQueue },
                CanisterQueue.new DEFAULT_QUEUE_CAPACITY))]
        callbacks_with_enqueued_response := [0] }
      (.response { originator := 1, respondent := 2, originator_reply_callback := 0
                   refund := 0, response_payload := .Data 4, deadline := 7 })
      .LocalSubnet) =
    (.ok (),
      { canister_queues :=
          [(2, ({ queue := [], reserved_slots := 1 : CanisterQueue },
                CanisterQueue.new DEFAULT_QUEUE_CAPACITY))]
        callbacks_with_enqueued_response := [0] }) := by
  have h := C2_push_input_duplicate_response
    { canister_queues :=
        [(2, ({ queue := [], reserved_slots := 1 : CanisterQueue },
              CanisterQueue.new DEFAULT_QUEUE_CAPACITY))]
      callbacks_with_enqueued_response := [0] }
    { originator := 1, respondent := 2, originator_reply_callback := 0
      refund := 0, response_payload := .Data 4, deadline := 7 }
    .LocalSubnet
    { queue := [], reserved_slots := 1 }
    (CanisterQueue.new DEFAULT_QUEUE_CAPACITY)
    (by decide) (by decide) (by decide)
  simpa using h

/-! ## Claim C8: atomicity of `push_input` for requests -/

/-- C8: when pushing a request fails (no request slot in the input
queue, or no response slot to reserve in the output queue), the error is
`QueueFull`, the request is handed back, and the state is unchanged: a
failure can only happen on a pre-existing full queue pair, so no pair is
created and no slot, pool entry, stat or schedule is touched. -/
theorem C8_push_input_request_atomic (qs : CanisterQueues) (request : Request)
    (t : InputQueueType) (e : StateError) (msg2 : RequestOrResponse) (qs2 : CanisterQueues)
    (h : qs.push_input (.request request) t = (.error (e, msg2), qs2)) :
    (∃ capacity, e = .QueueFull capacity) ∧ msg2 = .request request ∧ qs2 = qs := by
  unfold CanisterQueues.push_input CanisterQueues.get_or_insert_queues at h
  simp only [RequestOrResponse.sender] at h
  cases hfind : alFind qs.canister_queues request.sender with
  | some pair =>
    obtain ⟨iq, oq⟩ := pair
    rw [hfind] at h
    simp only at h
    cases hc1 : iq.check_has_request_slot with
    | error e1 =>
      rw [hc1] at h
      simp only [Prod.mk.injEq, Except.error.injEq] at h
      obtain ⟨⟨he, hm⟩, hq⟩ := h
      refine ⟨⟨iq.request_capacity, ?_⟩, hm.symm, hq.symm⟩
      unfold CanisterQueue.check_has_request_slot at hc1
      split at hc1
      · simp only [Except.error.injEq] at hc1
        rw [← he, ← hc1]
      · simp at hc1
    | ok u =>
      rw [hc1] at h
      simp only at h
      cases hc2 : oq.try_reserve_response_slot with
      | error e2 =>
        rw [hc2] at h
        simp only [Prod.mk.injEq, Except.error.injEq] at h
        obtain ⟨⟨he, hm⟩, hq⟩ := h
        refine ⟨⟨oq.response_capacity, ?_⟩, hm.symm, hq.symm⟩
        unfold CanisterQueue.try_reserve_response_slot at hc2
        split at hc2
        · simp only [Except.error.injEq] at hc2
          rw [← he, ← hc2]
        · simp at hc2
      | ok oq2 =>
        rw [hc2] at h
        simp at h
  | none =>
    rw [hfind] at h
    simp only at h
    rw [show (CanisterQueue.new DEFAULT_QUEUE_CAPACITY).check_has_request_slot = .ok ()
      from by decide] at h
    simp only at h
    rw [show (CanisterQueue.new DEFAULT_QUEUE_CAPACITY).try_reserve_response_slot =
        .ok { CanisterQueue.new DEFAULT_QUEUE_CAPACITY with reserved_slots := 1 }
      from by decide] at h
    simp at h

/-- Witness for C8: a state whose queue pair to the sender is full (an
existing pair at capacity), on which the push fails and the state is
returned unchanged. -/
theorem C8_push_input_request_atomic_witness :
    (∃ capacity, StateError.QueueFull 1 = StateError.QueueFull capacity) ∧
      RequestOrResponse.request
          { sender := 1, receiver := 2, sender_reply_callback := 0, payment := 0,
            deadline := 0, payload_size_bytes := 3 } =
        .request
          { sender := 1, receiver := 2, sender_reply_callback := 0, payment := 0,
            deadline := 0, payload_size_bytes := 3 } ∧
      ({ canister_queues :=
          [(1, ({ queue := [.Reference ⟨0⟩], request_capacity := 1, response_capacity := 1,
                  reserved_slots := 0 },
                { queue := [.Reference ⟨0⟩], request_capacity := 1, response_capacity := 1,
                  reserved_slots := 0 }))] } : CanisterQueues) =
        { canister_queues :=
          [(1, ({ queue := [.Reference ⟨0⟩], request_capacity := 1, response_capacity := 1,
                  reserved_slots := 0 },
                { queue := [.Reference ⟨0⟩], request_capacity := 1, response_capacity := 1,
                  reserved_slots := 0 }))] } :=
  C8_push_input_request_atomic
    { canister_queues :=
        [(1, ({ queue := [.Reference ⟨0⟩], request_capacity := 1, response_capacity := 1,
                reserved_slots := 0 },
              { queue := [.Reference ⟨0⟩], request_capacity := 1, response_capacity := 1,
                reserved_slots := 0 }))] }
    { sender := 1, receiver := 2, sender_reply_callback := 0, payment := 0,
      deadline := 0, payload_size_bytes := 3 }
    .LocalSubnet (.QueueFull 1)
    (.request
      { sender := 1, receiver := 2, sender_reply_callback := 0, payment := 0,
        deadline := 0, payload_size_bytes := 3 })
    { canister_queues :=
        [(1, ({ queue := [.Reference ⟨0⟩], request_capacity := 1, response_capacity := 1,
                reserved_slots := 0 },
              { queue := [.Reference ⟨0⟩], request_capacity := 1, response_capacity := 1,
                reserved_slots := 0 }))] }
    (by decide)

/-- C5 (refuted): `maybe_trim_queues` resets the whole pool, including
`message_id_generator`, whenever the pool becomes empty, so the trace
insert, take, insert issues the same id twice and the taken id returns
from `get` with the new message.  This contradicts the documented
contract of the generator (a monotonically increasing counter issuing
unique ids). -/
theorem C5_identifier_discipline_code_bug :
    (¬ (issuedIds
        [.insertInbound (.request
            { sender := 1, receiver := 2, sender_reply_callback := 7, payment := 0,
              deadline := 5, payload_size_bytes := 10 }),
         .take ⟨4⟩,
         .insertInbound (.request
            { sender := 3, receiver := 4, sender_reply_callback := 8, payment := 0,
              deadline := 6, payload_size_bytes := 11 })]).Nodup) ∧
    ((execPoolOps
        [.insertInbound (.request
            { sender := 1, receiver := 2, sender_reply_callback := 7, payment := 0,
              deadline := 5, payload_size_bytes := 10 })]).take ⟨4⟩).1 =
      some (.request
        { sender := 1, receiver := 2, sender_reply_callback := 7, payment := 0,
          deadline := 5, payload_size_bytes := 10 }) ∧
    (execPoolOps
        [.insertInbound (.request
            { sender := 1, receiver := 2, sender_reply_callback := 7, payment := 0,
              deadline := 5, payload_size_bytes := 10 }),
         .take ⟨4⟩,
         .insertInbound (.request
            { sender := 3, receiver := 4, sender_reply_callback := 8, payment := 0,
              deadline := 6, payload_size_bytes := 11 })]).get ⟨4⟩ =
      some (.request
        { sender := 3, receiver := 4, sender_reply_callback := 8, payment := 0,
          deadline := 6, payload_size_bytes := 11 }) := by
  decide


/-! ## Helper lemmas for claim C6 (expiration) -/

theorem alFind_not_mem {β : Type} (l : List (Nat × β)) (k : Nat)
    (h : k ∉ l.map Prod.fst) : alFind l k = none := by
  cases hf : alFind l k with
  | none => rfl
  | some v => exact absurd (List.mem_map.mpr ⟨(k, v), alFind_mem _ _ _ hf, rfl⟩) h

theorem alErase_sublist {β : Type} (l : List (Nat × β)) (k : Nat) :
    List.Sublist (alErase l k) l := by
  induction l with
  | nil => simp [alErase]
  | cons x rest ih =>
    unfold alErase
    split
    · exact List.sublist_cons_self _ _
    · exact List.Sublist.cons₂ _ ih

theorem alErase_keys_nodup {β : Type} (l : List (Nat × β)) (k : Nat)
    (h : (l.map Prod.fst).Nodup) : ((alErase l k).map Prod.fst).Nodup :=
  List.Nodup.sublist (List.Sublist.map _ (alErase_sublist l k)) h

theorem alFind_cons {β : Type} (k0 : Nat) (v0 : β) (rest : List (Nat × β)) (k : Nat) :
    alFind ((k0, v0) :: rest) k = if k0 = k then some v0 else alFind rest k := rfl

theorem alErase_cons {β : Type} (k0 : Nat) (v0 : β) (rest : List (Nat × β)) (k : Nat) :
    alErase ((k0, v0) :: rest) k = if k0 = k then rest else (k0, v0) :: alErase rest k := rfl

theorem alFind_alErase {β : Type} (l : List (Nat × β)) (k j : Nat)
    (hnd : (l.map Prod.fst).Nodup) :
    alFind (alErase l k) j = if j = k then none else alFind l j := by
  induction l with
  | nil => simp [alErase, alFind]
  | cons x rest ih =>
    obtain ⟨xk, xv⟩ := x
    simp only [List.map_cons, List.nodup_cons] at hnd
    obtain ⟨hx, hrest⟩ := hnd
    rw [alErase_cons]
    by_cases hxk : xk = k
    · rw [if_pos hxk]
      by_cases hj : j = k
      · rw [if_pos hj]
        exact alFind_not_mem rest j (by rw [hj, ← hxk]; exact hx)
      · rw [if_neg hj, alFind_cons]
        rw [if_neg (fun hc : xk = j => hj (hc ▸ hxk))]
    · rw [if_neg hxk, alFind_cons, alFind_cons]
      by_cases hj : xk = j
      · simp only [if_pos hj]
        rw [if_neg (fun hc : j = k => hxk (hj.trans hc))]
      · simp only [if_neg hj]
        exact ih hrest

theorem ite_field_messages {c : Prop} [Decidable c] {a b : MessagePool}
    {m : List (Nat × RequestOrResponse)} (h1 : a.messages = m) (h2 : b.messages = m) :
    (if c then a else b).messages = m := by
  split
  · exact h1
  · exact h2

theorem mem_ite_dq {c : Prop} [Decidable c] {a b : MessagePool}
    {e : CoarseTime × MessageId} (h1 : c → e ∈ a.deadline_queue)
    (h2 : ¬ c → e ∈ b.deadline_queue) : e ∈ (if c then a else b).deadline_queue := by
  split
  · next hc => exact h1 hc
  · next hc => exact h2 hc

theorem maybe_trim_messages (pool : MessagePool) :
    pool.maybe_trim_queues.messages = pool.messages := by
  unfold MessagePool.maybe_trim_queues
  dsimp only
  split
  · next hlen =>
    rw [List.length_eq_zero.mp hlen]
  · exact ite_field_messages (ite_field_messages rfl rfl) (ite_field_messages rfl rfl)

theorem take_snd_messages (pool : MessagePool) (id : MessageId) :
    (pool.take id).2.messages =
      match alFind pool.messages id.bits with
      | some _ => alErase pool.messages id.bits
      | none => pool.messages := by
  unfold MessagePool.take
  cases hf : alFind pool.messages id.bits with
  | none => rfl
  | some msg =>
    dsimp only
    rw [maybe_trim_messages]

theorem take_get (pool : MessagePool) (id j : MessageId)
    (hnd : (pool.messages.map Prod.fst).Nodup) :
    (pool.take id).2.get j = if j.bits = id.bits then none else pool.get j := by
  unfold MessagePool.get
  rw [take_snd_messages]
  cases hf : alFind pool.messages id.bits with
  | none =>
    dsimp only
    split
    · next hj => rw [hj, hf]
    · rfl
  | some msg =>
    dsimp only
    rw [alFind_alErase _ _ _ hnd]

theorem take_keys_nodup (pool : MessagePool) (id : MessageId)
    (hnd : (pool.messages.map Prod.fst).Nodup) :
    ((pool.take id).2.messages.map Prod.fst).Nodup := by
  rw [take_snd_messages]
  cases alFind pool.messages id.bits with
  | none => exact hnd
  | some msg => exact alErase_keys_nodup _ _ hnd

theorem maybe_trim_dq_mem (pool : MessagePool) :
    ∀ e ∈ pool.maybe_trim_queues.deadline_queue, e ∈ pool.deadline_queue := by
  unfold MessagePool.maybe_trim_queues
  intro e he
  dsimp only at he
  split at he
  · simp at he
  · split at he <;> (try dsimp only at he) <;> split at he <;> (try dsimp only at he) <;>
      first
        | exact (List.mem_filter.mp he).1
        | exact he

theorem take_dq_mem (pool : MessagePool) (id : MessageId) :
    ∀ e ∈ (pool.take id).2.deadline_queue, e ∈ pool.deadline_queue := by
  unfold MessagePool.take
  cases hf : alFind pool.messages id.bits with
  | none =>
    intro e he
    exact he
  | some msg =>
    dsimp only
    intro e he
    have h2 := maybe_trim_dq_mem _ e he
    exact h2

theorem maybe_trim_dq_keep (pool : MessagePool) (e : CoarseTime × MessageId)
    (he : e ∈ pool.deadline_queue)
    (hres : (alFind pool.messages e.2.bits).isSome = true) :
    e ∈ pool.maybe_trim_queues.deadline_queue := by
  unfold MessagePool.maybe_trim_queues
  dsimp only
  split
  · next hlen =>
    rw [List.length_eq_zero.mp hlen] at hres
    simp [alFind] at hres
  · refine mem_ite_dq (fun _ => ?_) (fun _ => ?_) <;>
      exact mem_ite_dq (fun _ => List.mem_filter.mpr ⟨he, hres⟩) (fun _ => he)

theorem take_dq_keep (pool : MessagePool) (id : MessageId)
    (e : CoarseTime × MessageId) (he : e ∈ pool.deadline_queue)
    (hres : ((pool.take id).2.get e.2).isSome = true) :
    e ∈ (pool.take id).2.deadline_queue := by
  revert hres
  unfold MessagePool.take
  cases hf : alFind pool.messages id.bits with
  | none =>
    intro _
    exact he
  | some msg =>
    dsimp only
    unfold MessagePool.get
    rw [maybe_trim_messages]
    intro hres
    exact maybe_trim_dq_keep _ e he hres

theorem heapPopMax_ge {α : Type} (lt : α → α → Bool)
    (hirr : ∀ a, lt a a = false)
    (hasym : ∀ a b, lt a b = true → lt b a = false)
    (hneg : ∀ a b c, lt a b = false → lt b c = false → lt a c = false)
    (l : List α) (m : α) (rest : List α)
    (h : heapPopMax lt l = some (m, rest)) : ∀ x ∈ l, lt m x = false := by
  induction l generalizing m rest with
  | nil => simp [heapPopMax] at h
  | cons x xs ih =>
    simp only [heapPopMax] at h
    cases hx : heapPopMax lt xs with
    | none =>
      rw [hx] at h
      have hnil := heapPopMax_eq_none lt xs hx
      subst hnil
      cases h
      intro y hy
      rcases List.mem_cons.mp hy with h1 | h1
      · rw [h1]
        exact hirr x
      · cases h1
    | some p =>
      rw [hx] at h
      obtain ⟨m0, rest0⟩ := p
      simp only at h
      split at h
      · next hlt =>
        cases h
        intro y hy
        rcases List.mem_cons.mp hy with h1 | h1
        · rw [h1]
          exact hasym _ _ hlt
        · exact ih _ _ hx y h1
      · next hlt =>
        cases h
        intro y hy
        rcases List.mem_cons.mp hy with h1 | h1
        · rw [h1]
          exact hirr x
        · exact hneg x m0 y (by simpa using hlt) (ih _ _ hx y h1)

theorem heapPopMax_mem_or {α : Type} (lt : α → α → Bool) (l : List α) (m : α)
    (rest : List α) (h : heapPopMax lt l = some (m, rest)) :
    ∀ x ∈ l, x = m ∨ x ∈ rest := by
  induction l generalizing m rest with
  | nil => simp [heapPopMax] at h
  | cons x xs ih =>
    simp only [heapPopMax] at h
    cases hx : heapPopMax lt xs with
    | none =>
      rw [hx] at h
      have hnil := heapPopMax_eq_none lt xs hx
      subst hnil
      cases h
      intro y hy
      rcases List.mem_cons.mp hy with h1 | h1
      · exact Or.inl h1
      · cases h1
    | some p =>
      rw [hx] at h
      obtain ⟨m0, rest0⟩ := p
      simp only at h
      split at h
      · cases h
        intro y hy
        rcases List.mem_cons.mp hy with h1 | h1
        · exact Or.inr (h1 ▸ List.mem_cons_self _ _)
        · rcases ih _ _ hx y h1 with h2 | h2
          · exact Or.inl h2
          · exact Or.inr (List.mem_cons_of_mem _ h2)
      · cases h
        intro y hy
        rcases List.mem_cons.mp hy with h1 | h1
        · exact Or.inl h1
        · exact Or.inr h1

theorem dlHeapLt_irrefl (a : CoarseTime × MessageId) : dlHeapLt a a = false := by
  unfold dlHeapLt
  simp

theorem dlHeapLt_asymm (a b : Nat × MessageId) (h : dlHeapLt a b = true) :
    dlHeapLt b a = false := by
  rcases a with ⟨ad, ai⟩
  rcases b with ⟨bd, bi⟩
  revert h
  unfold dlHeapLt
  simp
  intro h
  rcases h with h | ⟨h1, h2⟩
  · have H : (bd : Nat) < ad := h
    exact ⟨Nat.le_of_lt H, fun he => absurd he (Nat.ne_of_lt H)⟩
  · have H1 : (ad : Nat) = bd := h1
    exact ⟨Nat.le_of_eq H1.symm, fun _ => Nat.le_of_lt h2⟩

theorem dlHeapLt_negtrans (a b c : Nat × MessageId) (h1 : dlHeapLt a b = false)
    (h2 : dlHeapLt b c = false) : dlHeapLt a c = false := by
  rcases a with ⟨ad, ai⟩
  rcases b with ⟨bd, bi⟩
  rcases c with ⟨cd, ci⟩
  revert h1 h2
  unfold dlHeapLt
  simp
  intro h1 h2 h3 h4
  have H1 : (ad : Nat) ≤ bd := h1
  have H3 : (bd : Nat) ≤ cd := h3
  refine ⟨H1.trans H3, fun he => ?_⟩
  have He : (ad : Nat) = cd := he
  have hab : (ad : Nat) = bd := by omega
  have hbc : (bd : Nat) = cd := by omega
  have g1 := h2 hab
  have g2 := h4 hbc
  omega

theorem MessageId.bits_inj {a b : MessageId} (h : a.bits = b.bits) : a = b := by
  cases a
  cases b
  cases h
  rfl

theorem dlHeapLt_false_le (a b : Nat × MessageId) (h : dlHeapLt a b = false) :
    a.1 ≤ b.1 := by
  revert h
  unfold dlHeapLt
  simp
  intro h1 h2
  exact h1

theorem expire_go_spec_nil (now : Nat) (pool : MessagePool)
    (acc : List (MessageId × RequestOrResponse))
    (hnd : (pool.messages.map Prod.fst).Nodup)
    (hdq : pool.deadline_queue = []) :
    ExpireGoSpec now pool acc (acc.reverse, pool) := by
  refine ⟨fun k hk => hk, ?_, fun j _ => rfl, ?_, ?_, hnd⟩
  · intro j d hmem hd
    rw [hdq] at hmem
    cases hmem
  · intro p
    dsimp only
    simp only [List.mem_reverse]
    constructor
    · exact Or.inl
    · intro h
      rcases h with h | ⟨_, d, hmem, _⟩
      · exact h
      · rw [hdq] at hmem
        cases hmem
  · intro d id r2 h
    dsimp only at h
    rw [hdq] at h
    simp [heapPopMax] at h

theorem expire_go_spec_stop (now : Nat) (pool : MessagePool)
    (acc : List (MessageId × RequestOrResponse))
    (hnd : (pool.messages.map Prod.fst).Nodup)
    (d : Nat) (id : MessageId) (rest : List (CoarseTime × MessageId))
    (hpm : heapPopMax dlHeapLt pool.deadline_queue = some ((d, id), rest))
    (hstop : now ≤ d) :
    ExpireGoSpec now pool acc (acc.reverse, pool) := by
  have hmax := heapPopMax_ge dlHeapLt dlHeapLt_irrefl dlHeapLt_asymm dlHeapLt_negtrans
    _ _ _ hpm
  have hnone : ∀ (j : MessageId) (d0 : Nat), (d0, j) ∈ pool.deadline_queue →
      ¬ d0 < now := by
    intro j d0 hmem hlt
    have h1 := hmax _ hmem
    have h2 : d ≤ d0 := dlHeapLt_false_le _ _ h1
    omega
  refine ⟨fun k hk => hk, ?_, fun j _ => rfl, ?_, ?_, hnd⟩
  · intro j d0 hmem hd0
    exact absurd hd0 (hnone j d0 hmem)
  · intro p
    dsimp only
    simp only [List.mem_reverse]
    constructor
    · exact Or.inl
    · intro h
      rcases h with h | ⟨_, d0, hmem, hlt⟩
      · exact h
      · exact absurd hlt (hnone p.1 d0 hmem)
  · intro d2 id2 r2 h
    dsimp only at h
    rw [hpm] at h
    simp only [Option.some.injEq, Prod.mk.injEq] at h
    obtain ⟨⟨h1, h2⟩, h3⟩ := h
    omega

theorem take_fst (pool : MessagePool) (id : MessageId) :
    (pool.take id).1 = alFind pool.messages id.bits := by
  unfold MessagePool.take
  cases hf : alFind pool.messages id.bits with
  | none => rfl
  | some msg => rfl

theorem take_none_snd (pool : MessagePool) (id : MessageId)
    (hfind : alFind pool.messages id.bits = none) : (pool.take id).2 = pool := by
  unfold MessagePool.take
  rw [hfind]

theorem expire_go_spec_step_taken (now : Nat) (pool poolB : MessagePool)
    (acc : List (MessageId × RequestOrResponse)) (id : MessageId)
    (msg : RequestOrResponse) (d : Nat) (rest : List (CoarseTime × MessageId))
    (hnd : (pool.messages.map Prod.fst).Nodup)
    (hpm : heapPopMax dlHeapLt pool.deadline_queue = some ((d, id), rest))
    (hd : d < now)
    (hfind : alFind pool.messages id.bits = some msg)
    (hBmsg : poolB.messages = alErase pool.messages id.bits)
    (hBsub : ∀ e ∈ poolB.deadline_queue, e ∈ rest)
    (hBkeep : ∀ e : CoarseTime × MessageId, e ∈ rest →
        (alFind poolB.messages e.2.bits).isSome = true → e ∈ poolB.deadline_queue)
    (r : List (MessageId × RequestOrResponse) × MessagePool)
    (IH : ExpireGoSpec now poolB ((id, msg) :: acc) r) :
    ExpireGoSpec now pool acc r := by
  obtain ⟨IH1, IH2, IH3, IH4, IH5, IH6⟩ := IH
  have hrest_mem : ∀ e ∈ rest, e ∈ pool.deadline_queue :=
    heapPopMax_rest_mem dlHeapLt _ _ _ hpm
  have hmem_or : ∀ e ∈ pool.deadline_queue, e = (d, id) ∨ e ∈ rest :=
    heapPopMax_mem_or dlHeapLt _ _ _ hpm
  have hBfind : ∀ k, alFind poolB.messages k =
      if k = id.bits then none else alFind pool.messages k := by
    intro k
    rw [hBmsg]
    exact alFind_alErase _ _ _ hnd
  refine ⟨?_, ?_, ?_, ?_, IH5, IH6⟩
  · intro k hk
    apply IH1
    rw [hBfind]
    split
    · rfl
    · exact hk
  · intro j d0 hmem hd0
    by_cases hjb : j.bits = id.bits
    · apply IH1
      rw [hBfind, if_pos hjb]
    · rcases hmem_or _ hmem with he | he
      · exact absurd (congrArg (fun q : CoarseTime × MessageId => q.2.bits) he) hjb
      · cases hres : alFind poolB.messages j.bits with
        | none => exact IH1 _ hres
        | some v =>
          have hin : (d0, j) ∈ poolB.deadline_queue :=
            hBkeep _ he (by rw [hres]; rfl)
          exact IH2 j d0 hin hd0
  · intro j hnoexp
    have hjb : j.bits ≠ id.bits := by
      intro hb
      have hji : j = id := MessageId.bits_inj hb
      have hmm : (d, id) ∈ pool.deadline_queue := heapPopMax_max_mem dlHeapLt _ _ _ hpm
      exact hnoexp d (hji ▸ hmm) hd
    have h3 := IH3 j (fun d0 hmem => hnoexp d0 (hrest_mem _ (hBsub _ hmem)))
    rw [h3, hBfind, if_neg hjb]
  · intro p
    rw [IH4 p]
    constructor
    · intro h
      rcases h with h | h
      · rcases List.mem_cons.mp h with h | h
        · subst h
          exact Or.inr ⟨hfind, d, heapPopMax_max_mem dlHeapLt _ _ _ hpm, hd⟩
        · exact Or.inl h
      · obtain ⟨hres, d0, hmem, hlt⟩ := h
        rw [hBfind] at hres
        by_cases hpb : p.1.bits = id.bits
        · rw [if_pos hpb] at hres
          simp at hres
        · rw [if_neg hpb] at hres
          exact Or.inr ⟨hres, d0, hrest_mem _ (hBsub _ hmem), hlt⟩
    · intro h
      rcases h with h | ⟨hres, d0, hmem, hlt⟩
      · exact Or.inl (List.mem_cons_of_mem _ h)
      · by_cases hpb : p.1.bits = id.bits
        · have hpi : p.1 = id := MessageId.bits_inj hpb
          rw [hpb, hfind] at hres
          have h2 : p.2 = msg := by
            injection hres with h3
            exact h3.symm
          have hpeq : p = (id, msg) := by
            rw [Prod.ext_iff]
            exact ⟨hpi, h2⟩
          exact Or.inl (List.mem_cons.mpr (Or.inl hpeq))
        · refine Or.inr ⟨?_, d0, ?_, hlt⟩
          · rw [hBfind, if_neg hpb]
            exact hres
          · rcases hmem_or _ hmem with he | he
            · exact absurd (congrArg (fun q : CoarseTime × MessageId => q.2.bits) he) hpb
            · refine hBkeep _ he ?_
              rw [hBfind]
              rw [if_neg hpb, hres]
              rfl

theorem expire_go_spec_step_skipped (now : Nat) (pool pool2 : MessagePool)
    (acc : List (MessageId × RequestOrResponse)) (id : MessageId)
    (d : Nat) (rest : List (CoarseTime × MessageId))
    (hpm : heapPopMax dlHeapLt pool.deadline_queue = some ((d, id), rest))
    (hfind : alFind pool.messages id.bits = none)
    (hmsg : pool2.messages = pool.messages)
    (hdq : pool2.deadline_queue = rest)
    (r : List (MessageId × RequestOrResponse) × MessagePool)
    (IH : ExpireGoSpec now pool2 acc r) :
    ExpireGoSpec now pool acc r := by
  obtain ⟨IH1, IH2, IH3, IH4, IH5, IH6⟩ := IH
  have hrest_mem : ∀ e ∈ rest, e ∈ pool.deadline_queue :=
    heapPopMax_rest_mem dlHeapLt _ _ _ hpm
  have hmem_or : ∀ e ∈ pool.deadline_queue, e = (d, id) ∨ e ∈ rest :=
    heapPopMax_mem_or dlHeapLt _ _ _ hpm
  refine ⟨?_, ?_, ?_, ?_, IH5, IH6⟩
  · intro k hk
    apply IH1
    rw [hmsg]
    exact hk
  · intro j d0 hmem hd0
    by_cases hjb : j.bits = id.bits
    · apply IH1
      rw [hmsg, hjb]
      exact hfind
    · rcases hmem_or _ hmem with he | he
      · exact absurd (congrArg (fun q : CoarseTime × MessageId => q.2.bits) he) hjb
      · refine IH2 j d0 ?_ hd0
        rw [hdq]
        exact he
  · intro j hnoexp
    have h3 := IH3 j (fun d0 hmem => by
      rw [hdq] at hmem
      exact hnoexp d0 (hrest_mem _ hmem))
    rw [h3, hmsg]
  · intro p
    rw [IH4 p, hmsg, hdq]
    constructor
    · intro h
      rcases h with h | ⟨hres, d0, hmem, hlt⟩
      · exact Or.inl h
      · exact Or.inr ⟨hres, d0, hrest_mem _ hmem, hlt⟩
    · intro h
      rcases h with h | ⟨hres, d0, hmem, hlt⟩
      · exact Or.inl h
      · refine Or.inr ⟨hres, d0, ?_, hlt⟩
        rcases hmem_or _ hmem with he | he
        · have hb : p.1.bits = id.bits :=
            congrArg (fun q : CoarseTime × MessageId => q.2.bits) he
          rw [hb, hfind] at hres
          cases hres
        · exact he

theorem expire_go_spec (now : Nat) (fuel : Nat) :
    ∀ (pool : MessagePool) (acc : List (MessageId × RequestOrResponse)),
    (pool.messages.map Prod.fst).Nodup →
    pool.deadline_queue.length ≤ fuel →
    ExpireGoSpec now pool acc (MessagePool.expire_messages_go now fuel pool acc) := by
  induction fuel with
  | zero =>
    intro pool acc hnd hfuel
    have hdq : pool.deadline_queue = [] := List.length_eq_zero.mp (Nat.le_zero.mp hfuel)
    exact expire_go_spec_nil now pool acc hnd hdq
  | succ fuel ih =>
    intro pool acc hnd hfuel
    cases hpm : heapPopMax dlHeapLt pool.deadline_queue with
    | none =>
      have hdq := heapPopMax_eq_none _ _ hpm
      simp only [MessagePool.expire_messages_go, hpm]
      exact expire_go_spec_nil now pool acc hnd hdq
    | some pr =>
      obtain ⟨⟨d, id⟩, rest⟩ := pr
      have hrl : rest.length + 1 = pool.deadline_queue.length :=
        heapPopMax_length _ _ _ _ hpm
      simp only [MessagePool.expire_messages_go, hpm]
      by_cases hstop : now ≤ d
      · rw [if_pos hstop]
        exact expire_go_spec_stop now pool acc hnd d id rest hpm hstop
      · rw [if_neg hstop]
        rcases htake : MessagePool.take { pool with deadline_queue := rest } id
          with ⟨t1, t2⟩
        have hd : d < now := Nat.lt_of_not_le hstop
        cases hfind : alFind pool.messages id.bits with
        | some msg =>
          have ht1 : t1 = some msg := by
            have h := take_fst { pool with deadline_queue := rest } id
            rw [htake] at h
            exact h.trans hfind
          subst ht1
          dsimp only
          have hBmsg : t2.messages = alErase pool.messages id.bits := by
            have h := take_snd_messages { pool with deadline_queue := rest } id
            rw [htake] at h
            dsimp only at h
            rw [hfind] at h
            exact h
          have hBsub : ∀ e ∈ t2.deadline_queue, e ∈ rest := by
            intro e he
            have h := take_dq_mem { pool with deadline_queue := rest } id e
              (by rw [htake]; exact he)
            exact h
          have hBkeep : ∀ e : CoarseTime × MessageId, e ∈ rest →
              (alFind t2.messages e.2.bits).isSome = true → e ∈ t2.deadline_queue := by
            intro e he hres
            have h := take_dq_keep { pool with deadline_queue := rest } id e he
              (by rw [htake]; exact hres)
            rw [htake] at h
            exact h
          have hnd2 : (t2.messages.map Prod.fst).Nodup := by
            have h := take_keys_nodup { pool with deadline_queue := rest } id hnd
            rw [htake] at h
            exact h
          have hfuel2 : t2.deadline_queue.length ≤ fuel := by
            have h := take_deadline_le { pool with deadline_queue := rest } id
            rw [htake] at h
            have h2 : t2.deadline_queue.length ≤ rest.length := h
            omega
          exact expire_go_spec_step_taken now pool t2 acc id msg d rest hnd hpm hd
            hfind hBmsg hBsub hBkeep _ (ih t2 ((id, msg) :: acc) hnd2 hfuel2)
        | none =>
          have ht1 : t1 = none := by
            have h := take_fst { pool with deadline_queue := rest } id
            rw [htake] at h
            exact h.trans hfind
          subst ht1
          dsimp only
          have h2 : t2 = { pool with deadline_queue := rest } := by
            have h := take_none_snd { pool with deadline_queue := rest } id hfind
            rw [htake] at h
            exact h
          have hmsg2 : t2.messages = pool.messages := by
            rw [h2]
          have hdq2 : t2.deadline_queue = rest := by
            rw [h2]
          have hnd2 : (t2.messages.map Prod.fst).Nodup := by
            rw [hmsg2]
            exact hnd
          have hfuel2 : t2.deadline_queue.length ≤ fuel := by
            rw [hdq2]
            omega
          exact expire_go_spec_step_skipped now pool t2 acc id d rest hpm hfind
            hmsg2 hdq2 _ (ih t2 acc hnd2 hfuel2)

/-! ## Claim C6 -/

/-- C6: for every pool whose message keys are duplicate-free,
`expire_messages now` returns exactly the still-resident messages whose
deadline queue entry is strictly before `floor(now)` (stale heap entries
are silently dropped), removes exactly those from the pool while leaving
every other binding unchanged, and immediately afterwards
`has_expired_deadlines now` is false. -/
theorem C6_expiration_correctness (pool : MessagePool) (now : Time)
    (hnd : (pool.messages.map Prod.fst).Nodup) :
    (∀ p : MessageId × RequestOrResponse,
        p ∈ (pool.expire_messages now).1 ↔
          (pool.get p.1 = some p.2 ∧
            ∃ d : Nat, (d, p.1) ∈ pool.deadline_queue ∧ d < coarseFloor now)) ∧
    (∀ (j : MessageId) (d : Nat), (d, j) ∈ pool.deadline_queue →
        d < coarseFloor now → (pool.expire_messages now).2.get j = none) ∧
    (∀ j : MessageId, (∀ d : Nat, (d, j) ∈ pool.deadline_queue →
        ¬ d < coarseFloor now) →
        (pool.expire_messages now).2.get j = pool.get j) ∧
    (pool.expire_messages now).2.has_expired_deadlines now = false := by
  unfold MessagePool.expire_messages
  by_cases hdq : pool.deadline_queue.isEmpty = true
  · rw [if_pos hdq]
    have hnil : pool.deadline_queue = [] := List.isEmpty_iff.mp hdq
    refine ⟨?_, ?_, fun j _ => rfl, ?_⟩
    · intro p
      dsimp only
      constructor
      · intro h
        cases h
      · rintro ⟨_, d, hmem, _⟩
        rw [hnil] at hmem
        cases hmem
    · intro j d hmem hd
      rw [hnil] at hmem
      cases hmem
    · dsimp only
      unfold MessagePool.has_expired_deadlines
      rw [hnil]
      rfl
  · rw [if_neg hdq]
    obtain ⟨S1, S2, S3, S4, S5, S6⟩ :=
      expire_go_spec (coarseFloor now) pool.deadline_queue.length pool [] hnd
        (Nat.le_refl _)
    refine ⟨?_, S2, S3, ?_⟩
    · intro p
      rw [S4 p]
      simp only [List.not_mem_nil, false_or]
      exact Iff.rfl
    · unfold MessagePool.has_expired_deadlines
      cases hp : heapPopMax dlHeapLt
          (MessagePool.expire_messages_go (coarseFloor now)
            pool.deadline_queue.length pool []).2.deadline_queue with
      | none => rfl
      | some pr =>
        obtain ⟨⟨dd, ii⟩, rr⟩ := pr
        have hle := S5 dd ii rr hp
        exact decide_eq_false (Nat.not_lt.mpr hle)

/-- Witness: the expiration theorem instantiated at a concrete pool with
one expired best-effort response and `now` past its deadline. -/
theorem C6_expiration_correctness_witness :
    ((c6pool.messages.map Prod.fst).Nodup) ∧
    ((∀ p : MessageId × RequestOrResponse,
        p ∈ (c6pool.expire_messages 6000000000).1 ↔
          (c6pool.get p.1 = some p.2 ∧
            ∃ d : Nat, (d, p.1) ∈ c6pool.deadline_queue ∧
              d < coarseFloor 6000000000)) ∧
    (∀ (j : MessageId) (d : Nat), (d, j) ∈ c6pool.deadline_queue →
        d < coarseFloor 6000000000 →
        (c6pool.expire_messages 6000000000).2.get j = none) ∧
    (∀ j : MessageId, (∀ d : Nat, (d, j) ∈ c6pool.deadline_queue →
        ¬ d < coarseFloor 6000000000) →
        (c6pool.expire_messages 6000000000).2.get j = c6pool.get j) ∧
    (c6pool.expire_messages 6000000000).2.has_expired_deadlines 6000000000 = false) :=
  ⟨by decide, C6_expiration_correctness c6pool 6000000000 (by decide)⟩

/-! ## Claim C3 -/

/-- C3: an outbound guaranteed request to canister 2, pushed at time 0,
expires one second past `REQUEST_LIFETIME`: `time_out_messages` reports
one dropped message, the output queue to canister 2 becomes empty, and a
subsequent `pop_input` yields the synthesised reject response carrying
the original callback, the refunded payment, and the `SysTransient`
reject payload "Request timed out.". -/
theorem C3_timeout_reject_response (s cb pay size : Nat) :
    (let req : Request := { sender := s
                            receiver := 2
                            sender_reply_callback := cb
                            payment := pay
                            deadline := 0
                            payload_size_bytes := size }
     let pushed := ({} : CanisterQueues).push_output_request req 0
     let timed := pushed.2.time_out_messages (REQUEST_LIFETIME + 1000000000) 9 []
     pushed.1 = .ok () ∧
     timed.1 = 1 ∧
     (alFind timed.2.canister_queues 2).map (fun pr => pr.2.queue) = some [] ∧
     (timed.2.pop_input).1 = some (.response
       { originator := s
         respondent := 2
         originator_reply_callback := cb
         refund := pay
         response_payload := .Reject { code := .SysTransient
                                       message := "Request timed out." }
         deadline := 0 })) := by
  dsimp only
  have hexp : (({} : CanisterQueues).push_output_request
      { sender := s
        receiver := 2
        sender_reply_callback := cb
        payment := pay
        deadline := 0
        payload_size_bytes := size } 0).2.pool.expire_messages
        (REQUEST_LIFETIME + 1000000000) =
      ([(⟨2⟩, .request { sender := s
                         receiver := 2
                         sender_reply_callback := cb
                         payment := pay
                         deadline := 0
                         payload_size_bytes := size })], ({} : MessagePool)) := rfl
  unfold CanisterQueues.time_out_messages
  rw [hexp]
  simp only [List.foldl]
  refine ⟨rfl, rfl, rfl, rfl⟩

/-! ## Claim C4 -/

theorem c4refs_requests (i : Nat) :
    (({ queue := c4refs i } : CanisterQueue)).enqueued_requests = i := by
  unfold CanisterQueue.enqueued_requests c4refs
  rw [List.filter_eq_self.mpr]
  · rw [List.length_map, List.length_range]
  · intro a ha
    obtain ⟨k, hk, rfl⟩ := List.mem_map.mp ha
    show decide (MessageId.kind ⟨2 + k * 8⟩ = Kind.Request) = true
    unfold MessageId.kind
    have h2 : (2 + k * 8) % 2 = 0 := by omega
    rw [h2]
    decide

theorem alInsert_append_gt {β : Type} (l : List (Nat × β)) (k : Nat) (v : β)
    (h : ∀ e ∈ l, e.1 < k) : alInsert l k v = l ++ [(k, v)] := by
  induction l with
  | nil => rfl
  | cons x rest ih =>
    obtain ⟨xk, xv⟩ := x
    have hx := h (xk, xv) (List.mem_cons_self _ _)
    unfold alInsert
    rw [if_neg (by omega), if_neg (by omega)]
    rw [ih (fun e he => h e (List.mem_cons_of_mem _ he))]
    rfl

theorem c4msgs_snoc (i : Nat) :
    alInsert (c4msgs i) (2 + i * 8) (.request c4req) = c4msgs (i + 1) := by
  rw [alInsert_append_gt]
  · unfold c4msgs
    rw [List.range_succ, List.map_append]
    rfl
  · intro e he
    obtain ⟨k, hk, rfl⟩ := List.mem_map.mp he
    simp only [List.mem_range] at hk
    show 2 + k * 8 < 2 + i * 8
    omega

theorem c4refs_snoc (i : Nat) :
    c4refs i ++ [.Reference ⟨2 + i * 8⟩] = c4refs (i + 1) := by
  unfold c4refs
  rw [List.range_succ, List.map_append]
  rfl

theorem c4dq_snoc (i : Nat) :
    c4dq i ++ [(300, ⟨2 + i * 8⟩)] = c4dq (i + 1) := by
  unfold c4dq
  rw [List.range_succ, List.map_append]
  rfl

theorem c4_step (i : Nat) (hi : i < 500) :
    (c4state i).push_output_request c4req 0 = (.ok (), c4state (i + 1)) := by
  have hfind : alFind (c4state i).canister_queues c4req.receiver =
      some ({ reserved_slots := i }, { queue := c4refs i }) := rfl
  have hslot : CanisterQueue.check_has_request_slot { queue := c4refs i } = .ok () := by
    unfold CanisterQueue.check_has_request_slot
    rw [c4refs_requests]
    rw [show ({ queue := c4refs i } : CanisterQueue).request_capacity = 500 from rfl]
    rw [if_neg (by omega)]
  have hres : CanisterQueue.try_reserve_response_slot { reserved_slots := i } =
      .ok { reserved_slots := i + 1 } := by
    unfold CanisterQueue.try_reserve_response_slot
    rw [show ({ reserved_slots := i } : CanisterQueue).enqueued_responses = 0 from rfl]
    rw [show ({ reserved_slots := i } : CanisterQueue).response_capacity = 500 from rfl]
    rw [show ({ reserved_slots := i } : CanisterQueue).reserved_slots = i from rfl]
    rw [if_neg (by omega)]
    rfl
  have hins : (c4state i).pool.insert_outbound_request c4req 0 =
      (⟨2 + i * 8⟩, { messages := alInsert (c4msgs i) (2 + i * 8) (.request c4req)
                      message_stats := { size_bytes := 100 * i + 100
                                         outbound_message_count := i + 1 }
                      deadline_queue := c4dq i ++ [(300, ⟨2 + i * 8⟩)]
                      message_id_generator := i + 1 }) := rfl
  unfold CanisterQueues.push_output_request CanisterQueues.get_or_insert_queues
  rw [hfind]
  dsimp only
  rw [hslot]
  dsimp only
  rw [hres]
  dsimp only
  rw [hins]
  dsimp only
  rw [show ({ queue := c4refs i } : CanisterQueue).push_request ⟨2 + i * 8⟩ =
      { queue := c4refs i ++ [.Reference ⟨2 + i * 8⟩] } from rfl]
  rw [c4msgs_snoc, c4dq_snoc, c4refs_snoc]
  rfl

theorem c4iter_eq : ∀ i, 1 ≤ i → i ≤ 500 → c4iterFrom {} i = c4state i := by
  intro i
  induction i with
  | zero =>
    intro h1 _
    exact absurd h1 (by omega)
  | succ n ih =>
    intro h1 h2
    by_cases hn : n = 0
    · subst hn
      rfl
    · have hiter : c4iterFrom {} n = c4state n := ih (by omega) (by omega)
      show ((c4iterFrom {} n).push_output_request c4req 0).2 = c4state (n + 1)
      rw [hiter, c4_step n (by omega)]

theorem c4_ok (i : Nat) (hi : i < 500) :
    ((c4iterFrom {} i).push_output_request c4req 0).1 = .ok () := by
  by_cases h0 : i = 0
  · subst h0
    rfl
  · rw [c4iter_eq i (by omega) (by omega), c4_step i hi]

set_option maxRecDepth 10000 in
/-- C4 counterexample: the scenario behaves as claimed up to the 501st
call (500 successes, then `QueueFull`), but after one `push_input` of a
response matching the first request the further `push_output_request`
still returns `QueueFull` and leaves the state unchanged — pushing the
response does not free any slot; only consuming messages does. -/
theorem C4_backpressure_counterexample :
    (∀ i, i < 500 → ((c4iterFrom {} i).push_output_request c4req 0).1 = .ok ()) ∧
    ((c4iterFrom {} 500).push_output_request c4req 0).1 =
      .error (.QueueFull 500, c4req) ∧
    ((c4iterFrom {} 500).push_input (.response c4resp) .LocalSubnet).1 = .ok () ∧
    (((c4iterFrom {} 500).push_input (.response c4resp) .LocalSubnet).2.push_output_request
        c4req 0).1 = .error (.QueueFull 500, c4req) ∧
    (((c4iterFrom {} 500).push_input (.response c4resp) .LocalSubnet).2.push_output_request
        c4req 0).2 =
      ((c4iterFrom {} 500).push_input (.response c4resp) .LocalSubnet).2 := by
  have h500 : c4iterFrom {} 500 = c4state 500 := c4iter_eq 500 (by omega) (by omega)
  refine ⟨c4_ok, ?_, ?_, ?_, ?_⟩ <;> rw [h500] <;> rfl

set_option maxRecDepth 10000 in
/-- C4 amended: after the matching response is pushed, one output
message is consumed (`output_queues_for_each` accepting a single
message) and the response is popped (`pop_input`), a further
`push_output_request` succeeds. -/
theorem C4_backpressure :
    (((((c4iterFrom {} 500).push_input (.response c4resp) .LocalSubnet).2.output_queues_for_each
        (fun (b : Bool) _ _ => (!b, true)) false).1.pop_input).1 =
      some (.response c4resp)) ∧
    ((((((c4iterFrom {} 500).push_input (.response c4resp) .LocalSubnet).2.output_queues_for_each
        (fun (b : Bool) _ _ => (!b, true)) false).1.pop_input).2.push_output_request
        c4req 0).1 = .ok ()) := by
  have h500 : c4iterFrom {} 500 = c4state 500 := c4iter_eq 500 (by omega) (by omega)
  refine ⟨?_, ?_⟩ <;> rw [h500] <;> rfl

/-! ## Claim C9 -/

theorem nsMem_iff (l : List Nat) (k : Nat) : nsMem l k = true ↔ k ∈ l := by
  induction l with
  | nil => simp [nsMem]
  | cons x rest ih =>
    unfold nsMem
    simp only [Bool.or_eq_true, decide_eq_true_eq, List.mem_cons, ih]
    constructor
    · rintro (h | h)
      · exact Or.inl h.symm
      · exact Or.inr h
    · rintro (h | h)
      · exact Or.inl h.symm
      · exact Or.inr h

theorem mem_of_mem_nsErase (l : List Nat) (k b : Nat) (h : b ∈ nsErase l k) : b ∈ l := by
  induction l with
  | nil => simp [nsErase] at h
  | cons x rest ih =>
    unfold nsErase at h
    split at h
    · exact List.mem_cons_of_mem _ h
    · rcases List.mem_cons.mp h with h1 | h1
      · exact h1 ▸ List.mem_cons_self _ _
      · exact List.mem_cons_of_mem _ (ih h1)

theorem alFind_isSome_of_mem {β : Type} (l : List (Nat × β)) (k : Nat)
    (h : ∃ v, (k, v) ∈ l) : (alFind l k).isSome = true := by
  induction l with
  | nil =>
    obtain ⟨v, hv⟩ := h
    cases hv
  | cons x rest ih =>
    obtain ⟨xk, xv⟩ := x
    rw [alFind_cons]
    by_cases hx : xk = k
    · rw [if_pos hx]
      rfl
    · rw [if_neg hx]
      obtain ⟨v, hv⟩ := h
      rcases List.mem_cons.mp hv with h1 | h1
      · cases h1
        exact absurd rfl hx
      · exact ih ⟨v, h1⟩

theorem poolDeadlineIds_mem (messages : List (Nat × RequestOrResponse))
    (b : Nat) (h : b ∈ poolDeadlineIds messages) : ∃ v, (b, v) ∈ messages := by
  unfold poolDeadlineIds at h
  obtain ⟨e, he, rfl⟩ := List.mem_map.mp h
  exact ⟨e.2, (List.mem_filter.mp he).1⟩

theorem poolBestEffortIds_mem (messages : List (Nat × RequestOrResponse))
    (b : Nat) (h : b ∈ poolBestEffortIds messages) : ∃ v, (b, v) ∈ messages := by
  unfold poolBestEffortIds at h
  obtain ⟨e, he, rfl⟩ := List.mem_map.mp h
  exact ⟨e.2, (List.mem_filter.mp he).1⟩

theorem foldl_alInsert_sorted {β : Type} :
    ∀ (l acc : List (Nat × β)),
    (l.Pairwise (fun a b => a.1 < b.1)) →
    (∀ a ∈ acc, ∀ b ∈ l, a.1 < b.1) →
    l.foldl (fun m e => alInsert m e.1 e.2) acc = acc ++ l := by
  intro l
  induction l with
  | nil =>
    intro acc _ _
    simp
  | cons x rest ih =>
    intro acc hsorted hlt
    rw [List.pairwise_cons] at hsorted
    obtain ⟨hx, hrest⟩ := hsorted
    show rest.foldl (fun m e => alInsert m e.1 e.2) (alInsert acc x.1 x.2) = acc ++ x :: rest
    have hins : alInsert acc x.1 x.2 = acc ++ [(x.1, x.2)] :=
      alInsert_append_gt acc x.1 x.2
        (fun e he => hlt e he x (List.mem_cons_self _ _))
    rw [hins, ih (acc ++ [(x.1, x.2)]) hrest ?side]
    · simp
    case side =>
      intro a ha b hb
      rcases List.mem_append.mp ha with h1 | h1
      · exact hlt a h1 b (List.mem_cons_of_mem _ hb)
      · rcases List.mem_singleton.mp h1 with rfl
        exact hx b hb

theorem checkTagLoop_of_tags (l : List (Nat × RequestOrResponse))
    (h : ∀ e ∈ l, (MessageId.mk e.1).kind = Kind.ofMsg e.2 ∧
      (MessageId.mk e.1).cls = Class.ofMsg e.2) : checkTagLoop l = .ok () := by
  induction l with
  | nil => rfl
  | cons x rest ih =>
    obtain ⟨hk, hc⟩ := h x (List.mem_cons_self _ _)
    unfold checkTagLoop
    rw [if_neg (by simpa using hk), if_neg (by simpa using hc)]
    exact ih (fun e he => h e (List.mem_cons_of_mem _ he))

theorem poolMaxIdBits_lt (g : Nat) (hg : 0 < g) :
    ∀ (l : List (Nat × RequestOrResponse)) (acc : Nat), acc / 8 < g →
    (∀ e ∈ l, e.1 / 8 < g) → (l.foldl (fun m e => max m e.1) acc) / 8 < g := by
  intro l
  induction l with
  | nil =>
    intro acc hacc _
    exact hacc
  | cons x rest ih =>
    intro acc hacc hl
    show (rest.foldl (fun m e => max m e.1) (max acc x.1)) / 8 < g
    refine ih (max acc x.1) ?_ (fun e he => hl e (List.mem_cons_of_mem _ he))
    have hx := hl x (List.mem_cons_self _ _)
    have hmax : max acc x.1 = acc ∨ max acc x.1 = x.1 := by omega
    rcases hmax with heq | heq <;> rw [heq]
    · exact hacc
    · exact hx

theorem keys_nodup_of_sorted {β : Type} (l : List (Nat × β))
    (h : l.Pairwise (fun a b => a.1 < b.1)) : (l.map Prod.fst).Nodup := by
  have h2 : (l.map Prod.fst).Pairwise (· < ·) := List.pairwise_map.mpr h
  exact h2.imp Nat.ne_of_lt

theorem poolDeadlineIds_nodup (messages : List (Nat × RequestOrResponse))
    (h : (messages.map Prod.fst).Nodup) : (poolDeadlineIds messages).Nodup := by
  unfold poolDeadlineIds
  have hsub : ((messages.filter (fun e =>
      decide ((MessageId.mk e.1).cls = Class.BestEffort ∨
        e.1 % 8 = OUTBOUND_GUARANTEED_REQUEST))).map Prod.fst).Sublist
      (messages.map Prod.fst) :=
    (List.filter_sublist _).map _
  exact h.sublist hsub

theorem poolBestEffortIds_nodup (messages : List (Nat × RequestOrResponse))
    (h : (messages.map Prod.fst).Nodup) : (poolBestEffortIds messages).Nodup := by
  unfold poolBestEffortIds
  have hsub : ((messages.filter (fun e =>
      decide ((MessageId.mk e.1).cls = Class.BestEffort))).map Prod.fst).Sublist
      (messages.map Prod.fst) :=
    (List.filter_sublist _).map _
  exact h.sublist hsub

theorem nodup_nsErase (l : List Nat) (k : Nat) (h : l.Nodup) : (nsErase l k).Nodup := by
  induction l with
  | nil => exact h
  | cons x rest ih =>
    rw [List.nodup_cons] at h
    unfold nsErase
    split
    · exact h.2
    · rw [List.nodup_cons]
      exact ⟨fun hc => h.1 (mem_of_mem_nsErase _ _ _ hc), ih h.2⟩

theorem not_mem_nsErase_self (l : List Nat) (k : Nat) (h : l.Nodup) :
    k ∉ nsErase l k := by
  induction l with
  | nil => simp [nsErase]
  | cons x rest ih =>
    rw [List.nodup_cons] at h
    unfold nsErase
    split
    · next hx =>
      rw [← hx]
      exact h.1
    · next hx =>
      intro hc
      rcases List.mem_cons.mp hc with h1 | h1
      · exact hx h1.symm
      · exact ih h.2 h1

theorem checkDeadlineLoop_ok (P : MessagePool) :
    ∀ (dq : List (CoarseTime × MessageId)) (setD : List Nat),
    setD.Nodup →
    (∀ e ∈ dq, e.2.cls = Class.BestEffort ∨ e.2.bits % 8 = OUTBOUND_GUARANTEED_REQUEST) →
    (∀ e ∈ dq, ∀ p ∈ P.messages, p.1 = e.2.bits → e.2.cls = Class.BestEffort →
        p.2.deadline = e.1) →
    (∀ b ∈ setD, ∃ v, (b, v) ∈ P.messages) →
    (∀ b ∈ setD, ∃ e ∈ dq, e.2.bits = b) →
    checkDeadlineLoop P dq setD = .ok [] := by
  intro dq
  induction dq with
  | nil =>
    intro setD _ _ _ _ hcov
    have hnil : setD = [] := by
      cases setD with
      | nil => rfl
      | cons b rest =>
        obtain ⟨e, he, _⟩ := hcov b (List.mem_cons_self _ _)
        cases he
    rw [hnil]
    rfl
  | cons x rest ih =>
    intro setD hnd h1 h2 hres hcov
    obtain ⟨d, id⟩ := x
    have hcov2 : ∀ b ∈ nsErase setD id.bits, ∃ e ∈ rest, e.2.bits = b := by
      intro b hb
      have hbin : b ∈ setD := mem_of_mem_nsErase _ _ _ hb
      have hbne : b ≠ id.bits := fun hbe2 =>
        not_mem_nsErase_self setD id.bits hnd (hbe2 ▸ hb)
      obtain ⟨e, he, hbits⟩ := hcov b hbin
      rcases List.mem_cons.mp he with hh | hh
      · subst hh
        exact absurd hbits hbne.symm
      · exact ⟨e, hh, hbits⟩
    have hnd2 : (nsErase setD id.bits).Nodup := nodup_nsErase _ _ hnd
    have hres2 : ∀ b ∈ nsErase setD id.bits, ∃ v, (b, v) ∈ P.messages :=
      fun b hb => hres b (mem_of_mem_nsErase _ _ _ hb)
    unfold checkDeadlineLoop
    rw [if_neg ?b1]
    case b1 =>
      rintro ⟨hcls, hmod⟩
      rcases h1 (d, id) (List.mem_cons_self _ _) with h | h
      · exact absurd (hcls.symm.trans h) (by decide)
      · exact hmod h
    by_cases hbe : id.cls = Class.BestEffort ∧ nsMem setD id.bits = true
    · rw [if_pos hbe]
      obtain ⟨hcls, hmem⟩ := hbe
      have hmemD : id.bits ∈ setD := (nsMem_iff _ _).mp hmem
      obtain ⟨v, hv⟩ := hres id.bits hmemD
      have hsome : (alFind P.messages id.bits).isSome = true :=
        alFind_isSome_of_mem _ _ ⟨v, hv⟩
      obtain ⟨msg, hf⟩ : ∃ msg, alFind P.messages id.bits = some msg := by
        cases halt : alFind P.messages id.bits with
        | none =>
          rw [halt] at hsome
          cases hsome
        | some m => exact ⟨m, rfl⟩
      rw [hf]
      dsimp only
      have hmsgmem := alFind_mem _ _ _ hf
      have hdl : msg.deadline = d :=
        h2 (d, id) (List.mem_cons_self _ _) (id.bits, msg) hmsgmem rfl hcls
      rw [if_neg (by simp [hdl])]
      exact ih (nsErase setD id.bits) hnd2
        (fun e he => h1 e (List.mem_cons_of_mem _ he))
        (fun e he => h2 e (List.mem_cons_of_mem _ he))
        hres2 hcov2
    · rw [if_neg hbe]
      exact ih (nsErase setD id.bits) hnd2
        (fun e he => h1 e (List.mem_cons_of_mem _ he))
        (fun e he => h2 e (List.mem_cons_of_mem _ he))
        hres2 hcov2

theorem checkSizeLoop_ok :
    ∀ (sq : List (Nat × MessageId)) (setB : List Nat),
    setB.Nodup →
    (∀ e ∈ sq, e.2.cls = Class.BestEffort) →
    (∀ b ∈ setB, ∃ e ∈ sq, e.2.bits = b) →
    checkSizeLoop sq setB = .ok [] := by
  intro sq
  induction sq with
  | nil =>
    intro setB _ _ hcov
    have hnil : setB = [] := by
      cases setB with
      | nil => rfl
      | cons b rest =>
        obtain ⟨e, he, _⟩ := hcov b (List.mem_cons_self _ _)
        cases he
    rw [hnil]
    rfl
  | cons x rest ih =>
    intro setB hnd h1 hcov
    obtain ⟨sz, id⟩ := x
    have hcov2 : ∀ b ∈ nsErase setB id.bits, ∃ e ∈ rest, e.2.bits = b := by
      intro b hb
      have hbin : b ∈ setB := mem_of_mem_nsErase _ _ _ hb
      have hbne : b ≠ id.bits := fun hbe2 =>
        not_mem_nsErase_self setB id.bits hnd (hbe2 ▸ hb)
      obtain ⟨e, he, hbits⟩ := hcov b hbin
      rcases List.mem_cons.mp he with hh | hh
      · subst hh
        exact absurd hbits hbne.symm
      · exact ⟨e, hh, hbits⟩
    unfold checkSizeLoop
    rw [if_neg ?g1]
    case g1 =>
      intro hcls
      have hbe := h1 (sz, id) (List.mem_cons_self _ _)
      exact absurd (hcls.symm.trans hbe) (by decide)
    exact ih (nsErase setB id.bits) (nodup_nsErase _ _ hnd)
      (fun e he => h1 e (List.mem_cons_of_mem _ he)) hcov2

theorem dlVecLe_trans (a b c : Nat × MessageId) (h1 : dlVecLe a b = true)
    (h2 : dlVecLe b c = true) : dlVecLe a c = true := by
  rcases a with ⟨ad, ai⟩
  rcases b with ⟨bd, bi⟩
  rcases c with ⟨cd, ci⟩
  revert h1 h2
  unfold dlVecLe
  simp
  intro h1 h2
  rcases h1 with h1 | ⟨h1a, h1b⟩ <;> rcases h2 with h2 | ⟨h2a, h2b⟩
  · have A : (cd : Nat) < bd := h2
    have B : (bd : Nat) < ad := h1
    exact Or.inl (show (cd : Nat) < ad by omega)
  · have A : (bd : Nat) = cd := h2a
    have B : (bd : Nat) < ad := h1
    exact Or.inl (show (cd : Nat) < ad by omega)
  · have A : (cd : Nat) < bd := h2
    have B : (ad : Nat) = bd := h1a
    exact Or.inl (show (cd : Nat) < ad by omega)
  · have A : (ad : Nat) = bd := h1a
    have B : (bd : Nat) = cd := h2a
    have C : (ai.bits : Nat) ≤ bi.bits := h1b
    have D : (bi.bits : Nat) ≤ ci.bits := h2b
    exact Or.inr ⟨show (ad : Nat) = cd by omega,
      show (ai.bits : Nat) ≤ ci.bits by omega⟩

theorem dlVecLe_total (a b : Nat × MessageId) : (dlVecLe a b || dlVecLe b a) = true := by
  rcases a with ⟨ad, ai⟩
  rcases b with ⟨bd, bi⟩
  unfold dlVecLe
  simp
  rcases Nat.lt_trichotomy ad bd with h | h | h
  · exact Or.inr (Or.inl h)
  · by_cases hb : ai.bits ≤ bi.bits
    · exact Or.inl (Or.inr ⟨h, hb⟩)
    · exact Or.inr (Or.inr ⟨h.symm, by omega⟩)
  · exact Or.inl (Or.inl h)

theorem szVecLe_trans (a b c : Nat × MessageId) (h1 : szVecLe a b = true)
    (h2 : szVecLe b c = true) : szVecLe a c = true := by
  rcases a with ⟨ad, ai⟩
  rcases b with ⟨bd, bi⟩
  rcases c with ⟨cd, ci⟩
  revert h1 h2
  unfold szVecLe
  simp
  intro h1 h2
  rcases h1 with h1 | ⟨h1a, h1b⟩ <;> rcases h2 with h2 | ⟨h2a, h2b⟩
  · have A : (ad : Nat) < bd := h1
    have B : (bd : Nat) < cd := h2
    exact Or.inl (show (ad : Nat) < cd by omega)
  · have A : (ad : Nat) < bd := h1
    have B : (bd : Nat) = cd := h2a
    exact Or.inl (show (ad : Nat) < cd by omega)
  · have A : (ad : Nat) = bd := h1a
    have B : (bd : Nat) < cd := h2
    exact Or.inl (show (ad : Nat) < cd by omega)
  · have A : (ad : Nat) = bd := h1a
    have B : (bd : Nat) = cd := h2a
    have C : (ai.bits : Nat) ≤ bi.bits := h1b
    have D : (bi.bits : Nat) ≤ ci.bits := h2b
    exact Or.inr ⟨show (ad : Nat) = cd by omega,
      show (ai.bits : Nat) ≤ ci.bits by omega⟩

theorem szVecLe_total (a b : Nat × MessageId) : (szVecLe a b || szVecLe b a) = true := by
  rcases a with ⟨ad, ai⟩
  rcases b with ⟨bd, bi⟩
  unfold szVecLe
  simp
  rcases Nat.lt_trichotomy ad bd with h | h | h
  · exact Or.inl (Or.inl h)
  · by_cases hb : ai.bits ≤ bi.bits
    · exact Or.inl (Or.inr ⟨h, hb⟩)
    · exact Or.inr (Or.inr ⟨h.symm, by omega⟩)
  · exact Or.inr (Or.inl h)

theorem map_bits_inverse_dl (l : List (CoarseTime × MessageId)) :
    (l.map (fun e => (e.1, e.2.bits))).map (fun e => (e.1, MessageId.mk e.2)) = l := by
  rw [List.map_map]
  have hfun : ((fun e : CoarseTime × Nat => (e.1, MessageId.mk e.2)) ∘
      (fun e : CoarseTime × MessageId => (e.1, e.2.bits))) = id := by
    funext e
    rcases e with ⟨a, ⟨b⟩⟩
    rfl
  rw [hfun, List.map_id]

theorem map_bits_inverse_sz (l : List (Nat × MessageId)) :
    (l.map (fun e => (e.1, e.2.bits))).map (fun e => (e.1, MessageId.mk e.2)) = l := by
  rw [List.map_map]
  have hfun : ((fun e : Nat × Nat => (e.1, MessageId.mk e.2)) ∘
      (fun e : Nat × MessageId => (e.1, e.2.bits))) = id := by
    funext e
    rcases e with ⟨a, ⟨b⟩⟩
    rfl
  rw [hfun, List.map_id]

theorem list_beq_refl {α : Type} [DecidableEq α] (l : List α) : (l == l) = true := by
  induction l with
  | nil => rfl
  | cons x rest ih =>
    show (x == x && (rest == rest)) = true
    rw [ih]
    show (decide (x = x) && true) = true
    rw [decide_eq_true rfl]
    rfl

theorem check_invariants_ok_of (P : MessagePool)
    (htags : TagConsistent P)
    (hgen : 0 < P.message_id_generator)
    (hids : ∀ e ∈ P.messages, e.1 / 8 < P.message_id_generator)
    (hkeys : (P.messages.map Prod.fst).Nodup)
    (hdq1 : ∀ e ∈ P.deadline_queue,
        e.2.cls = Class.BestEffort ∨ e.2.bits % 8 = OUTBOUND_GUARANTEED_REQUEST)
    (hdq2 : ∀ e ∈ P.deadline_queue, ∀ p ∈ P.messages,
        p.1 = e.2.bits → e.2.cls = Class.BestEffort → p.2.deadline = e.1)
    (hdqcov : ∀ b ∈ poolDeadlineIds P.messages, ∃ e ∈ P.deadline_queue, e.2.bits = b)
    (hsq1 : ∀ e ∈ P.size_queue, e.2.cls = Class.BestEffort)
    (hsqcov : ∀ b ∈ poolBestEffortIds P.messages, ∃ e ∈ P.size_queue, e.2.bits = b) :
    P.check_invariants = .ok () := by
  unfold MessagePool.check_invariants
  rw [checkTagLoop_of_tags _ htags]
  have hdl : checkDeadlineLoop P P.deadline_queue (poolDeadlineIds P.messages) = .ok [] :=
    checkDeadlineLoop_ok P P.deadline_queue (poolDeadlineIds P.messages)
      (poolDeadlineIds_nodup _ hkeys) hdq1 hdq2
      (fun b hb => poolDeadlineIds_mem _ b hb) hdqcov
  have hsz : checkSizeLoop P.size_queue (poolBestEffortIds P.messages) = .ok [] :=
    checkSizeLoop_ok P.size_queue (poolBestEffortIds P.messages)
      (poolBestEffortIds_nodup _ hkeys) hsq1 hsqcov
  have hmax : ¬ poolMaxIdBits P.messages / 8 ≥ P.message_id_generator := by
    have h := poolMaxIdBits_lt P.message_id_generator hgen P.messages 0 (by omega) hids
    unfold poolMaxIdBits
    omega
  simp only [Bind.bind, Except.bind]
  (try dsimp only)
  rw [if_neg hmax]
  (try dsimp only)
  rw [hdl]
  (try dsimp only)
  rw [if_neg (fun hc : ([] : List Nat) ≠ [] => hc rfl)]
  (try dsimp only)
  rw [hsz]
  (try dsimp only)
  rw [if_neg (fun hc : ([] : List Nat) ≠ [] => hc rfl)]
  rfl

/-- C9 amended: for every pool satisfying the stated invariants in which
at least one id has been issued, encoding to the canonical record form
and decoding yields `Ok` of a pool that the source `PartialEq` considers
equal to the original. -/
theorem C9_round_trip (pool : MessagePool) (hwf : PoolWF pool)
    (hgen : 0 < pool.message_id_generator) :
    ∃ pool2, MessagePool.try_from (MessagePool.to_pb pool) = .ok pool2 ∧
      MessagePool.srcEq pool2 pool = true := by
  obtain ⟨hsort, htags, hids, hdq1, hdq2, hdqcov, hsq1, hsqcov, hstats⟩ := hwf
  have hkeys : (pool.messages.map Prod.fst).Nodup := keys_nodup_of_sorted _ hsort
  have hfold : pool.messages.foldl (fun m e => alInsert m e.1 e.2) [] = pool.messages := by
    have h := foldl_alInsert_sorted pool.messages [] hsort
      (fun a ha => absurd ha (List.not_mem_nil a))
    simpa using h
  unfold MessagePool.try_from MessagePool.to_pb
  dsimp only
  rw [hfold]
  rw [if_neg (fun hc => hc rfl)]
  rw [map_bits_inverse_dl, map_bits_inverse_sz]
  have hchk := check_invariants_ok_of
    { messages := pool.messages
      message_stats := MessagePool.calculate_message_stats pool.messages
      deadline_queue := pool.deadline_queue.mergeSort dlVecLe
      size_queue := pool.size_queue.mergeSort szVecLe
      message_id_generator := pool.message_id_generator }
    htags hgen hids hkeys
    (fun e he => hdq1 e (List.mem_mergeSort.mp he))
    (fun e he => hdq2 e (List.mem_mergeSort.mp he))
    (fun b hb =>
      match hdqcov b hb with
      | ⟨e, he, hbits⟩ => ⟨e, List.mem_mergeSort.mpr he, hbits⟩)
    (fun e he => hsq1 e (List.mem_mergeSort.mp he))
    (fun b hb =>
      match hsqcov b hb with
      | ⟨e, he, hbits⟩ => ⟨e, List.mem_mergeSort.mpr he, hbits⟩)
  rw [hchk]
  refine ⟨_, rfl, ?_⟩
  have hmsdl : (pool.deadline_queue.mergeSort dlVecLe).mergeSort dlVecLe =
      pool.deadline_queue.mergeSort dlVecLe :=
    List.mergeSort_of_sorted (List.sorted_mergeSort dlVecLe_trans dlVecLe_total _)
  have hmssz : (pool.size_queue.mergeSort szVecLe).mergeSort szVecLe =
      pool.size_queue.mergeSort szVecLe :=
    List.mergeSort_of_sorted (List.sorted_mergeSort szVecLe_trans szVecLe_total _)
  unfold MessagePool.srcEq binary_heap_eq
  rw [hstats]
  simp only [hmsdl, hmssz, List.length_mergeSort, beq_self_eq_true, Bool.and_eq_true,
    Bool.or_eq_true, decide_eq_true_eq]
  simp only [true_and, and_true]
  exact ⟨Or.inr (list_beq_refl _), Or.inr (list_beq_refl _)⟩

/-- C9 counterexample: the default (empty) pool satisfies all stated
invariants, yet decoding its encoding fails: `check_invariants` rejects
it because the unguarded largest-id bound `max >> 3 >= generator`
triggers on the empty map with generator 0. -/
theorem C9_round_trip_counterexample :
    PoolWF ({} : MessagePool) ∧
    MessagePool.try_from (MessagePool.to_pb ({} : MessagePool)) =
      .error "MessageId out of bounds" := by
  constructor
  · refine ⟨List.Pairwise.nil, ?_, ?_, ?_, ?_, ?_, ?_, ?_, rfl⟩ <;>
      intro e he <;> cases he
  · rfl

/-- Witness: the round-trip theorem instantiated at a pool holding one
best-effort request. -/
theorem C9_round_trip_witness :
    PoolWF c9pool ∧ 0 < c9pool.message_id_generator ∧
    (∃ pool2, MessagePool.try_from (MessagePool.to_pb c9pool) = .ok pool2 ∧
      MessagePool.srcEq pool2 c9pool = true) :=
  ⟨by unfold PoolWF TagConsistent; decide, by decide,
    C9_round_trip c9pool (by unfold PoolWF TagConsistent; decide) (by decide)⟩

/-! ## Claims C7 and C10 -/

/-- C7: messages enter the load shedding queue iff they are best-effort,
so in every reachable pool state the load shedding queue holds only
best-effort ids, and any message removed and returned by
`shed_largest_message` is a best-effort message (guaranteed-response
messages are never shed). -/
theorem C7_guaranteed_never_shed (ops : List PoolOp) (id : MessageId)
    (msg : RequestOrResponse)
    (hshed : ((execPoolOps ops).shed_largest_message).1 = some (id, msg)) :
    msg.is_best_effort = true ∧
      ∀ e ∈ (execPoolOps ops).size_queue, e.2.cls = Class.BestEffort := by
  have hinv := execPoolOps_tag_inv ops
  exact ⟨shed_result_best_effort _ _ _ hinv hshed, hinv.2⟩

/-- Witness for C7: after inserting one best-effort inbound request,
shedding returns it. -/
theorem C7_guaranteed_never_shed_witness :
    (RequestOrResponse.request
        { sender := 1, receiver := 2, sender_reply_callback := 7, payment := 0,
          deadline := 5, payload_size_bytes := 10 }).is_best_effort = true ∧
      ∀ e ∈ (execPoolOps
          [.insertInbound (.request
            { sender := 1, receiver := 2, sender_reply_callback := 7, payment := 0,
              deadline := 5, payload_size_bytes := 10 })]).size_queue,
        e.2.cls = Class.BestEffort :=
  C7_guaranteed_never_shed
    [.insertInbound (.request
      { sender := 1, receiver := 2, sender_reply_callback := 7, payment := 0,
        deadline := 5, payload_size_bytes := 10 })]
    ⟨4⟩
    (.request
      { sender := 1, receiver := 2, sender_reply_callback := 7, payment := 0,
        deadline := 5, payload_size_bytes := 10 })
    (by decide)

/-- C10: in every reachable pool state, and in every pool accepted by
deserialization, the kind bit of every stored id matches the stored
message (request vs response) and the class bit matches its deadline
(guaranteed iff the zero sentinel), so the low id bits can be trusted in
place of inspecting the message. -/
theorem C10_tag_bit_consistency (ops : List PoolOp) (pb : PbMessagePool)
    (pool : MessagePool) (hdec : MessagePool.try_from pb = .ok pool) :
    TagConsistent (execPoolOps ops) ∧ TagConsistent pool := by
  refine ⟨(execPoolOps_tag_inv ops).1, ?_⟩
  exact check_invariants_ok_tags pool (try_from_ok pb pool hdec).1

/-- Witness for C10: decoding the record of a pool holding one inbound
best-effort request succeeds, and both consistency statements hold on
the concrete states. -/
theorem C10_tag_bit_consistency_witness :
    TagConsistent (execPoolOps
      [.insertInbound (.request
        { sender := 1, receiver := 2, sender_reply_callback := 7, payment := 0,
          deadline := 5, payload_size_bytes := 10 })]) ∧
    TagConsistent
      { messages := [(4, .request
          { sender := 1, receiver := 2, sender_reply_callback := 7, payment := 0,
            deadline := 5, payload_size_bytes := 10 })]
        message_stats := MessagePool.calculate_message_stats
          [(4, .request
            { sender := 1, receiver := 2, sender_reply_callback := 7, payment := 0,
              deadline := 5, payload_size_bytes := 10 })]
        deadline_queue := [(5, ⟨4⟩)]
        size_queue := [(10, ⟨4⟩)]
        message_id_generator := 1 } :=
  C10_tag_bit_consistency
    [.insertInbound (.request
      { sender := 1, receiver := 2, sender_reply_callback := 7, payment := 0,
        deadline := 5, payload_size_bytes := 10 })]
    { messages := [(4, .request
        { sender := 1, receiver := 2, sender_reply_callback := 7, payment := 0,
          deadline := 5, payload_size_bytes := 10 })]
      message_deadlines := [(5, 4)]
      message_sizes := [(10, 4)]
      message_id_generator := 1 }
    { messages := [(4, .request
        { sender := 1, receiver := 2, sender_reply_callback := 7, payment := 0,
          deadline := 5, payload_size_bytes := 10 })]
      message_stats := MessagePool.calculate_message_stats
        [(4, .request
          { sender := 1, receiver := 2, sender_reply_callback := 7, payment := 0,
            deadline := 5, payload_size_bytes := 10 })]
      deadline_queue := [(5, ⟨4⟩)]
      size_queue := [(10, ⟨4⟩)]
      message_id_generator := 1 }
    (by decide)


/-! ## Claim C1 -/

set_option maxRecDepth 4000 in
/-- C1: the head non-staleness invariant — after every public operation,
a queue whose `peek` returns an item has that item's id resident in the
pool — is violated by a concrete nine-operation trace built from
`push_output_request`, `push_input`, `shed_largest_message`,
`time_out_messages` and `pop_input` alone.  All pushes succeed, the shed
succeeds, `time_out_messages` expires all four pooled messages (emptying
the pool mid-batch, which resets the id generator and lets a timeout
response reuse id 21, aliasing a reference shed earlier), and after the
second `pop_input` — which consumes the aliased message through the
queue from canister 3 — the head of the input queue from canister 2 is
`Reference 21` while `pool.get 21` is `none`. -/
theorem C1_head_staleness_code_bug :
    c1s1.1 = .ok () ∧ c1s2.1 = .ok () ∧ c1s3.1 = .ok () ∧ c1s4.1 = true ∧
    c1s7.1 = 4 ∧
    (c1s7.2.pop_input.2.pop_input).1 = some (.response c1tr) ∧
    (alFind c1final.canister_queues 2).map (fun pr => pr.1.queue.head?) =
      some (some (.Reference ⟨21⟩)) ∧
    c1final.pool.get ⟨21⟩ = none :=
  ⟨rfl, rfl, rfl, rfl, rfl, rfl, rfl, rfl⟩

end ICQ
